import Mathlib

/-! chain5j-kvstore: key schema and chain accessors.

A shallow embedding of the Go package `kvstore` (files `schema.go`,
`chain_accessor.go`, `chain_config.go`, `kvstore.go`, `interface.go`).

* A Go `byte` is a natural number; every byte the package computes itself is
  reduced modulo 256 explicitly.  A `[]byte` is a list, `append` is `++`.
* A `uint64` is a natural number; where the width matters the statements carry
  the bound `n < 2 ^ 64`.
* A Go `error` is `Option String` (`none` is `nil`).
-/

namespace Kvstore

/-! ## Bytes, hashes -/

/-- A Go byte slice. -/
abbrev Bytes := List Nat

/-- A Go `error` value; `none` is `nil`. -/
abbrev Error := Option String

/-- Conversion `[]byte("...")` of an ASCII string literal. -/
def ascii (s : String) : Bytes := s.toList.map Char.toNat

/-- The type `types.Hash`: a fixed array of 32 bytes. -/
structure Hash where
  bytes : Bytes
  len : bytes.length = 32
deriving DecidableEq

/-- The method `Hash.Bytes()`. -/
def Hash.Bytes (h : Hash) : Bytes := h.bytes

/-- The zero value `types.Hash{}` (also `types.EmptyHash`). -/
def Hash.zero : Hash := ⟨List.replicate 32 0, by simp⟩

/-- Modelled from the spec: `types.BytesToHash` is declared outside this
repository.  A value of a hash-valued key is "a 32-byte hash"; the conversion
keeps the last 32 bytes of a longer slice and left-pads a shorter one with
zero bytes, so that it is the identity on 32-byte slices. -/
def BytesToHash (b : Bytes) : Hash :=
  ⟨List.replicate (32 - b.length) 0 ++ b.drop (b.length - 32), by
    simp only [List.length_append, List.length_replicate, List.length_drop]; omega⟩

/-! ## schema.go -/

def headHeaderKey : Bytes := ascii "LastHeader"
def headBlockKey : Bytes := ascii "LastBlock"
def headerPrefix : Bytes := ascii "h"
def headerHashSuffix : Bytes := ascii "n"
def headerNumberPrefix : Bytes := ascii "H"
def blockBodyPrefix : Bytes := ascii "b"
def blockReceiptsPrefix : Bytes := ascii "r"
def txLookupPrefix : Bytes := ascii "l"
def chainConfigPrefix : Bytes := ascii "cc-"
def chainConfigLatestPrefix : Bytes := ascii "cc-latest"

/-- The function `encodeBlockNumber`: `binary.BigEndian.PutUint64` into a
fresh 8-byte slice; byte `i` is `byte(number >> (56 - 8*i))`. -/
def encodeBlockNumber (number : Nat) : Bytes :=
  [number / 2 ^ 56 % 256, number / 2 ^ 48 % 256, number / 2 ^ 40 % 256,
   number / 2 ^ 32 % 256, number / 2 ^ 24 % 256, number / 2 ^ 16 % 256,
   number / 2 ^ 8 % 256, number % 256]

def headerNumberKey (hash : Hash) : Bytes :=
  headerNumberPrefix ++ hash.Bytes

def headerHashKey (number : Nat) : Bytes :=
  (headerPrefix ++ encodeBlockNumber number) ++ headerHashSuffix

def headerKey (number : Nat) (hash : Hash) : Bytes :=
  (headerPrefix ++ encodeBlockNumber number) ++ hash.Bytes

def blockBodyKey (number : Nat) (hash : Hash) : Bytes :=
  (blockBodyPrefix ++ encodeBlockNumber number) ++ hash.Bytes

def txLookupKey (hash : Hash) : Bytes :=
  txLookupPrefix ++ hash.Bytes

def chainConfigKey (hash : Hash) : Bytes :=
  chainConfigPrefix ++ hash.Bytes

def chainConfigHeightKey (height : Nat) : Bytes :=
  chainConfigPrefix ++ encodeBlockNumber height

def blockReceiptsKey (number : Nat) (hash : Hash) : Bytes :=
  (blockReceiptsPrefix ++ encodeBlockNumber number) ++ hash.Bytes

/-- Value of a byte string read as a big-endian base-256 numeral (the reading
the spec gives to the 8-byte height field). -/
def bigEndianValue (b : Bytes) : Nat := b.foldl (fun acc x => acc * 256 + x) 0

/-- The entity kinds of the key layout, with the height and hash each one
embeds. -/
inductive SchemaKey where
  | headHeader
  | headBlock
  | chainConfigLatest
  | headerHash (number : Nat)
  | header (number : Nat) (hash : Hash)
  | headerNumber (hash : Hash)
  | blockBody (number : Nat) (hash : Hash)
  | blockReceipts (number : Nat) (hash : Hash)
  | txLookup (hash : Hash)
  | chainConfig (hash : Hash)
  | chainConfigHeight (height : Nat)
deriving DecidableEq

/-- The key the schema produces for an entity. -/
def SchemaKey.key : SchemaKey → Bytes
  | .headHeader => headHeaderKey
  | .headBlock => headBlockKey
  | .chainConfigLatest => chainConfigLatestPrefix
  | .headerHash n => headerHashKey n
  | .header n h => headerKey n h
  | .headerNumber h => headerNumberKey h
  | .blockBody n h => blockBodyKey n h
  | .blockReceipts n h => blockReceiptsKey n h
  | .txLookup h => txLookupKey h
  | .chainConfig h => chainConfigKey h
  | .chainConfigHeight n => chainConfigHeightKey n

/-- The height embedded in a key, if any, is a `uint64`. -/
def SchemaKey.InRange : SchemaKey → Prop
  | .headerHash n => n < 2 ^ 64
  | .header n _ => n < 2 ^ 64
  | .blockBody n _ => n < 2 ^ 64
  | .blockReceipts n _ => n < 2 ^ 64
  | .chainConfigHeight n => n < 2 ^ 64
  | _ => True

/-! ## interface.go -/

/-- The interface `ChainDbReader` over a store state `σ`: both calls return a
value and an error. -/
structure ChainDbReader (σ : Type) where
  Has : σ → Bytes → Bool × Error
  Get : σ → Bytes → Bytes × Error

/-- The interface `ChainDbWriter`: `Put` yields the next state and an error. -/
structure ChainDbWriter (σ : Type) where
  Put : σ → Bytes → Bytes → σ × Error

/-- The interface `ChainDbDeleter`. -/
structure ChainDbDeleter (σ : Type) where
  Delete : σ → Bytes → σ × Error

/-! ## Records of the imported packages

The record types (`models`, `statetype`, `types`) are declared outside this
repository; they are modelled by the parts the accessors use. -/

/-- The type `types.TxType`. -/
abbrev TxType := String

/-- A `models.Transaction`: the results of `Hash()` and `TxType()` and the
remaining content. -/
structure Transaction where
  Hash : Hash
  TxType : TxType
  payload : Bytes
deriving DecidableEq

/-- Modelled from the spec: `models.Transactions` is declared outside this
repository.  It holds the transactions of a block as a sequence of type-groups
(`Data()`); a transaction is addressed "by (type, index)", the index being
"the position within the specific group, not a global transaction index". -/
structure Transactions where
  data : List (List Transaction)
deriving DecidableEq

/-- The method `Data()`: the type-groups in order. -/
def Transactions.Data (t : Transactions) : List (List Transaction) := t.data

/-- Modelled from the spec: `Len()` counts the transactions of all groups. -/
def Transactions.Len (t : Transactions) : Int :=
  ((t.data.map List.length).sum : Nat)

/-- Modelled from the spec: `GetTx(txType, index)` selects the group whose
type (that of its first transaction) is `txType` and returns its element at
`index`; `none` is the nil transaction. -/
def Transactions.GetTx (t : Transactions) (txType : TxType) (index : Nat) :
    Option Transaction :=
  match t.data.find? (fun g => g.head?.map Transaction.TxType == some txType) with
  | some g => g.get? index
  | none => none

/-- A `models.Header`: its `Height` field, the result of `Hash()` and the
remaining content. -/
structure Header where
  Height : Nat
  Hash : Hash
  rest : Bytes
deriving DecidableEq

/-- A `models.Body`. -/
structure Body where
  Txs : Transactions
deriving DecidableEq

/-- A `statetype.Receipt`; `ReceiptForStorage` is the same record under
another name, the conversions between the two are casts. -/
structure Receipt where
  content : Bytes
deriving DecidableEq

/-- A `models.Block`: a header and the transactions. -/
structure Block where
  header : Header
  transactions : Transactions
deriving DecidableEq

/-- Modelled from the spec: `models.NewBlock(header, txs, receipts)` gives the
"combined block equal to header+body". -/
def NewBlock (header : Header) (txs : Transactions) (_receipts : List Receipt) : Block :=
  ⟨header, txs⟩

def Block.Header (b : Block) : Header := b.header
def Block.Hash (b : Block) : Hash := b.header.Hash
def Block.Height (b : Block) : Nat := b.header.Height
def Block.Transactions (b : Block) : Transactions := b.transactions
def Block.Body (b : Block) : Body := ⟨b.transactions⟩

/-- A `models.BlockAbstract`: the identity (hash, height) of a block. -/
structure BlockAbstract where
  Hash : Hash
  Height : Nat
deriving DecidableEq

/-- A `models.ChainConfig`. -/
structure ChainConfig where
  content : Bytes
deriving DecidableEq

/-- The struct `TxLookupEntry` of `chain_accessor.go`. -/
structure TxLookupEntry where
  BlockHash : Hash
  BlockIndex : Nat
  TxType : TxType
  TxIndex : Nat
deriving DecidableEq

/-- What the package takes from its imports: the serialization codec (`rlp`
and `codec.Coder()`), one pair of functions per record shape, and the constant
`types.TxTypeUnknown`.  An encoder returns the bytes and an error; a decoder
returns the record or an error. -/
structure Deps where
  EncodeHeader : Header → Bytes × Error
  DecodeHeader : Bytes → Except String Header
  EncodeBody : Body → Bytes × Error
  DecodeBody : Bytes → Except String Body
  EncodeReceipts : List Receipt → Bytes × Error
  DecodeReceipts : Bytes → Except String (List Receipt)
  EncodeEntry : TxLookupEntry → Bytes × Error
  DecodeEntry : Bytes → Except String TxLookupEntry
  EncodeConfig : ChainConfig → Bytes × Error
  DecodeConfig : Bytes → Except String ChainConfig
  TxTypeUnknown : TxType

/-- The Go conversion `int(x)` of a `uint64` on a 64-bit platform. -/
def toInt (x : Nat) : Int :=
  if x % 2 ^ 64 < 2 ^ 63 then ((x % 2 ^ 64 : Nat) : Int) else ((x % 2 ^ 64 : Nat) : Int) - 2 ^ 64

/-- The function `binary.BigEndian.Uint64` on a slice of at least 8 bytes. -/
def bigEndianUint64 (b : Bytes) : Nat :=
  b.getD 7 0 % 256 + b.getD 6 0 % 256 * 2 ^ 8 + b.getD 5 0 % 256 * 2 ^ 16 +
  b.getD 4 0 % 256 * 2 ^ 24 + b.getD 3 0 % 256 * 2 ^ 32 + b.getD 2 0 % 256 * 2 ^ 40 +
  b.getD 1 0 % 256 * 2 ^ 48 + b.getD 0 0 % 256 * 2 ^ 56

/-! ## chain_accessor.go

Every accessor takes the interface value `db` and the store state `s` it acts
on.  A `logger.Error` or `logger.Crit` call writes a log line and the function
goes on; the log is not part of the state. -/

section Accessors

variable {σ : Type}

def ReadCanonicalHash (db : ChainDbReader σ) (s : σ) (number : Nat) : Hash :=
  let data := (db.Get s (headerHashKey number)).1
  if data.length = 0 then Hash.zero else BytesToHash data

def WriteCanonicalHash (db : ChainDbWriter σ) (s : σ) (hash : Hash) (number : Nat) : σ :=
  (db.Put s (headerHashKey number) hash.Bytes).1

def DeleteCanonicalHash (db : ChainDbDeleter σ) (s : σ) (number : Nat) : σ :=
  (db.Delete s (headerHashKey number)).1

def ReadHeaderNumber (db : ChainDbReader σ) (s : σ) (hash : Hash) : Option Nat :=
  let data := (db.Get s (headerNumberKey hash)).1
  if data.length ≠ 8 then none else some (bigEndianUint64 data)

def ReadHeaderRLP (db : ChainDbReader σ) (s : σ) (hash : Hash) (number : Nat) : Bytes :=
  (db.Get s (headerKey number hash)).1

def ReadHeader (c : Deps) (db : ChainDbReader σ) (s : σ) (hash : Hash) (number : Nat) :
    Option Header :=
  let data := ReadHeaderRLP db s hash number
  if data.length = 0 then none
  else
    match c.DecodeHeader data with
    | .error _ => none
    | .ok header => some header

def HasHeader (db : ChainDbReader σ) (s : σ) (hash : Hash) (number : Nat) : Bool :=
  let (has, err) := db.Has s (headerKey number hash)
  if !has || err ≠ none then false else true

def WriteHeader (c : Deps) (db : ChainDbWriter σ) (s : σ) (header : Header) : σ :=
  let hash := header.Hash
  let height := header.Height
  let encoded := encodeBlockNumber height
  let s1 := (db.Put s (headerNumberKey hash) encoded).1
  let data := (c.EncodeHeader header).1
  (db.Put s1 (headerKey height hash) data).1

def DeleteHeader (db : ChainDbDeleter σ) (s : σ) (hash : Hash) (number : Nat) : σ :=
  let s1 := (db.Delete s (headerKey number hash)).1
  (db.Delete s1 (headerNumberKey hash)).1

def ReadHeadHeaderHash (db : ChainDbReader σ) (s : σ) : Hash :=
  let data := (db.Get s headHeaderKey).1
  if data.length = 0 then Hash.zero else BytesToHash data

def WriteHeadHeaderHash (db : ChainDbWriter σ) (s : σ) (hash : Hash) : σ :=
  (db.Put s headHeaderKey hash.Bytes).1

def ReadHeadBlockHash (db : ChainDbReader σ) (s : σ) : Hash :=
  let data := (db.Get s headBlockKey).1
  if data.length = 0 then Hash.zero else BytesToHash data

def WriteHeadBlockHash (db : ChainDbWriter σ) (s : σ) (hash : Hash) : σ :=
  (db.Put s headBlockKey hash.Bytes).1

def ReadBodyRLP (db : ChainDbReader σ) (s : σ) (hash : Hash) (number : Nat) : Bytes :=
  (db.Get s (blockBodyKey number hash)).1

def WriteBodyRLP (db : ChainDbWriter σ) (s : σ) (hash : Hash) (number : Nat) (rlp : Bytes) : σ :=
  (db.Put s (blockBodyKey number hash) rlp).1

def HasBody (db : ChainDbReader σ) (s : σ) (hash : Hash) (number : Nat) : Bool :=
  let (has, err) := db.Has s (blockBodyKey number hash)
  if !has || err ≠ none then false else true

def ReadBody (c : Deps) (db : ChainDbReader σ) (s : σ) (hash : Hash) (number : Nat) :
    Option Body :=
  let data := ReadBodyRLP db s hash number
  if data.length = 0 then none
  else
    match c.DecodeBody data with
    | .error _ => none
    | .ok body => some body

def WriteBody (c : Deps) (db : ChainDbWriter σ) (s : σ) (hash : Hash) (number : Nat)
    (body : Body) : σ :=
  let data := (c.EncodeBody body).1
  WriteBodyRLP db s hash number data

def DeleteBody (db : ChainDbDeleter σ) (s : σ) (hash : Hash) (number : Nat) : σ :=
  (db.Delete s (blockBodyKey number hash)).1

def ReadBlock (c : Deps) (db : ChainDbReader σ) (s : σ) (hash : Hash) (number : Nat) :
    Option Block :=
  match ReadHeader c db s hash number with
  | none => none
  | some header =>
    match ReadBody c db s hash number with
    | none => none
    | some body => some (NewBlock header body.Txs [])

def WriteBlock (c : Deps) (db : ChainDbWriter σ) (s : σ) (block : Block) : σ :=
  let s1 := WriteBody c db s block.Hash block.Height block.Body
  WriteHeader c db s1 block.Header

def DeleteBlock (db : ChainDbDeleter σ) (s : σ) (hash : Hash) (number : Nat) : σ :=
  let s1 := DeleteHeader db s hash number
  DeleteBody db s1 hash number

def WriteReceipts (c : Deps) (db : ChainDbWriter σ) (s : σ) (hash : Hash) (number : Nat)
    (receipts : List Receipt) : σ :=
  let storageReceipts := receipts
  let bytes := (c.EncodeReceipts storageReceipts).1
  (db.Put s (blockReceiptsKey number hash) bytes).1

def ReadReceipts (c : Deps) (db : ChainDbReader σ) (s : σ) (hash : Hash) (number : Nat) :
    Option (List Receipt) :=
  let data := (db.Get s (blockReceiptsKey number hash)).1
  if data.length = 0 then none
  else
    match c.DecodeReceipts data with
    | .error _ => none
    | .ok storageReceipts => some storageReceipts

/-- The inner loop `for j, tx := range txs` of `WriteTxLookupEntries`, entered
at index `j` with the transactions `rest` still to visit.  `txs[0]` is read
inside the loop body only, where `txs` is not empty. -/
def WriteTxLookupEntries.group (c : Deps) (db : ChainDbWriter σ) (block : Block)
    (txs : List Transaction) : Nat → List Transaction → σ → σ
  | _, [], s => s
  | j, tx :: rest, s =>
    let entry : TxLookupEntry :=
      { BlockHash := block.Hash
        BlockIndex := block.Height
        TxType := (txs.headD tx).TxType
        TxIndex := j % 2 ^ 64 }
    let data := (c.EncodeEntry entry).1
    WriteTxLookupEntries.group c db block txs (j + 1) rest (db.Put s (txLookupKey tx.Hash) data).1

def WriteTxLookupEntries (c : Deps) (db : ChainDbWriter σ) (s : σ) (block : Block) : σ :=
  block.Transactions.Data.foldl
    (fun s txs => WriteTxLookupEntries.group c db block txs 0 txs s) s

def ReadTxLookupEntry (c : Deps) (db : ChainDbReader σ) (s : σ) (hash : Hash) :
    Hash × Nat × TxType × Nat :=
  let data := (db.Get s (txLookupKey hash)).1
  if data.length = 0 then (Hash.zero, 0, c.TxTypeUnknown, 0)
  else
    match c.DecodeEntry data with
    | .error _ => (Hash.zero, 0, c.TxTypeUnknown, 0)
    | .ok entry => (entry.BlockHash, entry.BlockIndex, entry.TxType, entry.TxIndex)

def ReadTransaction (c : Deps) (db : ChainDbReader σ) (s : σ) (hash : Hash) :
    Option Transaction × Hash × Nat × Nat :=
  let (blockHash, blockNumber, txType, txIndex) := ReadTxLookupEntry c db s hash
  if blockHash = Hash.zero then (none, Hash.zero, 0, 0)
  else
    match ReadBody c db s blockHash blockNumber with
    | none => (none, Hash.zero, 0, 0)
    | some body =>
      if body.Txs.Len ≤ toInt txIndex then (none, Hash.zero, 0, 0)
      else (body.Txs.GetTx txType txIndex, blockHash, blockNumber, txIndex)

/-! ## chain_config.go -/

def ReadChainConfigByHash (c : Deps) (db : ChainDbReader σ) (s : σ) (bHash : Hash) :
    Option ChainConfig × Error :=
  let (data, err) := db.Get s (chainConfigKey bHash)
  if data.length = 0 then (none, err)
  else
    match c.DecodeConfig data with
    | .error e => (none, some e)
    | .ok cfc => (some cfc, none)

def ReadChainConfigLatest (c : Deps) (db : ChainDbReader σ) (s : σ) :
    Option ChainConfig × Error :=
  let (bHash, err) := db.Get s chainConfigLatestPrefix
  if bHash.length = 0 then (none, err)
  else ReadChainConfigByHash c db s (BytesToHash bHash)

def ReadChainConfigByHeight (c : Deps) (db : ChainDbReader σ) (s : σ) (height : Nat) :
    Option ChainConfig × Error :=
  let (bHash, err) := db.Get s (chainConfigHeightKey height)
  if bHash.length = 0 then (none, err)
  else ReadChainConfigByHash c db s (BytesToHash bHash)

def WriteChainConfig (c : Deps) (db : ChainDbWriter σ) (s : σ) (bHash : Hash) (height : Nat)
    (cfg : Option ChainConfig) : σ × Error :=
  match cfg with
  | none => (s, some "chain config is empty")
  | some cfg =>
    let (bytes, err) := c.EncodeConfig cfg
    if err ≠ none then (s, err)
    else
      let s1 := (db.Put s (chainConfigKey bHash) bytes).1
      let s2 := (db.Put s1 (chainConfigHeightKey height) bHash.Bytes).1
      let s3 := (db.Put s2 chainConfigLatestPrefix bHash.Bytes).1
      (s3, none)

end Accessors

/-! ## kvstore.go -/

/-- The handle `kvstore.Database` held by `kvStore`, over store states `σ` and
batches `β`: the three accessor interfaces on the store itself, `NewBatch`, the
writer and deleter interfaces of a batch, and the commit `batch.Write()`. -/
structure Database (σ β : Type) where
  reader : ChainDbReader σ
  writer : ChainDbWriter σ
  deleter : ChainDbDeleter σ
  NewBatch : σ → β
  batchWriter : ChainDbWriter β
  batchDeleter : ChainDbDeleter β
  Write : σ → β → σ × Error

section Facade

variable {σ β : Type}

def kvStore.GetHeader (c : Deps) (db : Database σ β) (s : σ) (hash : Hash) (height : Nat) :
    Option Header × Error :=
  match ReadHeader c db.reader s hash height with
  | none => (none, some "header is not exist")
  | some header => (some header, none)

def kvStore.GetHeaderByHash (c : Deps) (db : Database σ β) (s : σ) (hash : Hash) :
    Option Header × Error :=
  match ReadHeaderNumber db.reader s hash with
  | none => (none, some "header is not exist")
  | some height => kvStore.GetHeader c db s hash height

def kvStore.LatestHeader (c : Deps) (db : Database σ β) (s : σ) : Option Header × Error :=
  let lastBlockHash := ReadHeadHeaderHash db.reader s
  if lastBlockHash = Hash.zero then (none, some "current header not exist")
  else
    match kvStore.GetHeaderByHash c db s lastBlockHash with
    | (_, some err) => (none, some err)
    | (latestHeader, none) => (latestHeader, none)

def kvStore.GetHeaderByHeight (c : Deps) (db : Database σ β) (s : σ) (height : Nat) :
    Option Header × Error :=
  let hash := ReadCanonicalHash db.reader s height
  if hash = Hash.zero then (none, some "header is not exist")
  else kvStore.GetHeader c db s hash height

def kvStore.GetHeaderHeight (db : Database σ β) (s : σ) (hash : Hash) : Option Nat × Error :=
  (ReadHeaderNumber db.reader s hash, none)

def kvStore.HasHeader (db : Database σ β) (s : σ) (hash : Hash) (height : Nat) : Bool × Error :=
  (Kvstore.HasHeader db.reader s hash height, none)

def kvStore.GetBlock (c : Deps) (db : Database σ β) (s : σ) (hash : Hash) (height : Nat) :
    Option Block × Error :=
  match ReadBlock c db.reader s hash height with
  | none => (none, some "block is not exist")
  | some block => (some block, none)

def kvStore.GetBlockByHash (c : Deps) (db : Database σ β) (s : σ) (hash : Hash) :
    Option Block × Error :=
  match ReadHeaderNumber db.reader s hash with
  | none => (none, some "block is not exist")
  | some height => kvStore.GetBlock c db s hash height

def kvStore.CurrentBlock (c : Deps) (db : Database σ β) (s : σ) : Option Block × Error :=
  let lastBlockHash := ReadHeadBlockHash db.reader s
  if lastBlockHash = Hash.zero then (none, some "latest block no exist")
  else
    match kvStore.GetBlockByHash c db s lastBlockHash with
    | (_, some err) => (none, some err)
    | (latestBlock, none) => (latestBlock, none)

def kvStore.GetBlockByHeight (c : Deps) (db : Database σ β) (s : σ) (height : Nat) :
    Option Block × Error :=
  let hash := ReadCanonicalHash db.reader s height
  if hash = Hash.zero then (none, some "block is not exist")
  else kvStore.GetBlock c db s hash height

def kvStore.HasBlock (db : Database σ β) (s : σ) (hash : Hash) (height : Nat) : Bool × Error :=
  (HasBody db.reader s hash height, none)

def kvStore.ChainConfig (c : Deps) (db : Database σ β) (s : σ) : Option Kvstore.ChainConfig × Error :=
  ReadChainConfigLatest c db.reader s

def kvStore.GetChainConfig (c : Deps) (db : Database σ β) (s : σ) (hash : Hash)
    (_height : Nat) : Option Kvstore.ChainConfig × Error :=
  ReadChainConfigByHash c db.reader s hash

def kvStore.GetChainConfigByHeight (c : Deps) (db : Database σ β) (s : σ) (height : Nat) :
    Option Kvstore.ChainConfig × Error :=
  ReadChainConfigByHeight c db.reader s height

def kvStore.GetChainConfigByHash (c : Deps) (db : Database σ β) (s : σ) (hash : Hash) :
    Option Kvstore.ChainConfig × Error :=
  ReadChainConfigByHash c db.reader s hash

def kvStore.GetCanonicalHash (db : Database σ β) (s : σ) (height : Nat) : Hash × Error :=
  (ReadCanonicalHash db.reader s height, none)

def kvStore.LatestBlockHash (db : Database σ β) (s : σ) : Hash × Error :=
  (ReadHeadBlockHash db.reader s, none)

def kvStore.LatestHeaderHash (db : Database σ β) (s : σ) : Hash × Error :=
  (ReadHeadHeaderHash db.reader s, none)

def kvStore.GetBody (c : Deps) (db : Database σ β) (s : σ) (hash : Hash) (height : Nat) :
    Option Body × Error :=
  (ReadBody c db.reader s hash height, none)

/-- The named result `err` is never assigned: it is returned as `nil`. -/
def kvStore.GetTransaction (c : Deps) (db : Database σ β) (s : σ) (hash : Hash) :
    Option Transaction × Hash × Nat × Nat × Error :=
  let (tx, blockHash, blockHeight, txIndex) := ReadTransaction c db.reader s hash
  (tx, blockHash, blockHeight, txIndex, none)

def kvStore.GetReceipts (c : Deps) (db : Database σ β) (s : σ) (bHash : Hash) (height : Nat) :
    Option (List Receipt) × Error :=
  (ReadReceipts c db.reader s bHash height, none)

def kvStore.WriteBlock (c : Deps) (db : Database σ β) (s : σ) (block : Block) : σ × Error :=
  (Kvstore.WriteBlock c db.writer s block, none)

def kvStore.WriteHeader (c : Deps) (db : Database σ β) (s : σ) (header : Header) : σ × Error :=
  (Kvstore.WriteHeader c db.writer s header, none)

def kvStore.WriteChainConfig (c : Deps) (db : Database σ β) (s : σ) (bHash : Hash)
    (height : Nat) (chainConfig : Option Kvstore.ChainConfig) : σ × Error :=
  Kvstore.WriteChainConfig c db.writer s bHash height chainConfig

def kvStore.WriteLatestBlockHash (db : Database σ β) (s : σ) (bHash : Hash) : σ × Error :=
  (WriteHeadBlockHash db.writer s bHash, none)

def kvStore.WriteLatestHeaderHash (db : Database σ β) (s : σ) (bHash : Hash) : σ × Error :=
  (WriteHeadHeaderHash db.writer s bHash, none)

def kvStore.WriteCanonicalHash (db : Database σ β) (s : σ) (bHash : Hash) (height : Nat) :
    σ × Error :=
  (Kvstore.WriteCanonicalHash db.writer s bHash height, none)

/-- The result of `batch.Write()` is dropped. -/
def kvStore.WriteTxsLookup (c : Deps) (db : Database σ β) (s : σ) (block : Block) : σ × Error :=
  let batch := db.NewBatch s
  let batch := WriteTxLookupEntries c db.batchWriter batch block
  ((db.Write s batch).1, none)

def kvStore.WriteReceipts (c : Deps) (db : Database σ β) (s : σ) (bHash : Hash) (height : Nat)
    (receipts : List Receipt) : σ × Error :=
  (Kvstore.WriteReceipts c db.writer s bHash height receipts, none)

/-- The loop `for i := currentHeight; i > desHeight; i--` of `DeleteBlock`,
entered with the counter at the given value.  At `i = 0` the test `i > desHeight`
fails, so the decrement is never applied to `0`. -/
def kvStore.DeleteBlock.rollback (del : ChainDbDeleter β) (desHeight : Nat) : Nat → β → β
  | 0, batch => batch
  | i + 1, batch =>
    if i + 1 > desHeight then
      kvStore.DeleteBlock.rollback del desHeight i (DeleteCanonicalHash del batch (i + 1))
    else batch

def kvStore.DeleteBlock (db : Database σ β) (s : σ) (blockAbs : List BlockAbstract)
    (currentHeight desHeight : Nat) : σ × Error :=
  let batch := db.NewBatch s
  let batch := blockAbs.foldl
    (fun batch a =>
      let batch := DeleteBody db.batchDeleter batch a.Hash a.Height
      DeleteHeader db.batchDeleter batch a.Hash a.Height) batch
  let batch :=
    if currentHeight > desHeight then
      kvStore.DeleteBlock.rollback db.batchDeleter desHeight currentHeight batch
    else batch
  db.Write s batch

end Facade

/-! ## The store engine

The ordered key-value engine is an external collaborator; the reference engine
below follows the contract the spec gives for it. -/

/-- A queued batch operation. -/
inductive Op where
  | put (key value : Bytes)
  | delete (key : Bytes)
deriving DecidableEq

/-- Modelled from the spec: the state of the underlying store, "arbitrary
byte-key storage": each key is absent or holds a byte string. -/
abbrev Store := Bytes → Option Bytes

/-- The store without any key. -/
def Store.empty : Store := fun _ => none

def Store.put (s : Store) (key value : Bytes) : Store :=
  fun k => if k = key then some value else s k

def Store.delete (s : Store) (key : Bytes) : Store :=
  fun k => if k = key then none else s k

def Store.applyOp (s : Store) : Op → Store
  | .put k v => s.put k v
  | .delete k => s.delete k

/-- Apply queued operations in the order they were queued. -/
def Store.apply (s : Store) (ops : List Op) : Store := ops.foldl Store.applyOp s

/-- Modelled from the spec: the engine contract `Get(key) -> bytes-or-absent`,
`Has(key) -> bool`.  `notFound` is the error the engine reports with the empty
result of a `Get` on an absent key (`nil` for some engines). -/
def Store.reader (notFound : Error) : ChainDbReader Store where
  Has := fun s k => ((s k).isSome, none)
  Get := fun s k =>
    match s k with
    | some v => (v, none)
    | none => ([], notFound)

/-- Modelled from the spec: `Put(key, value) -> ok-or-error`, here succeeding. -/
def Store.writer : ChainDbWriter Store where
  Put := fun s k v => (s.put k v, none)

/-- Modelled from the spec: `Delete(key) -> ok-or-error`, here succeeding. -/
def Store.deleter : ChainDbDeleter Store where
  Delete := fun s k => (s.delete k, none)

/-- Modelled from the spec: the engine with its atomic batch, "`batch.Put/Delete`
queuing and `batch.Commit() -> ok-or-error` applying all queued ops atomically
and indivisibly".  `commit` is the outcome of the commit: on `nil` all queued
operations are applied in order, on an error none is. -/
def Store.database (notFound commit : Error) : Database Store (List Op) where
  reader := Store.reader notFound
  writer := Store.writer
  deleter := Store.deleter
  NewBatch := fun _ => []
  batchWriter := { Put := fun b k v => (b ++ [Op.put k v], none) }
  batchDeleter := { Delete := fun b k => (b ++ [Op.delete k], none) }
  Write := fun s b =>
    match commit with
    | none => (s.apply b, none)
    | some e => (s, some e)

/-- An engine state read through a failing `Get`: on a key for which `fault`
gives an error, `Get` returns no bytes and that error; on the other keys it
behaves as the reference reader. -/
def Store.faultyReader (fault : Bytes → Error) (notFound : Error) : ChainDbReader Store where
  Has := fun s k => ((s k).isSome, none)
  Get := fun s k =>
    match fault k with
    | some e => ([], some e)
    | none => (Store.reader notFound).Get s k

/-- The reference engine with the failing `Get` of `Store.faultyReader`. -/
def Store.faultyDatabase (fault : Bytes → Error) (notFound commit : Error) :
    Database Store (List Op) where
  reader := Store.faultyReader fault notFound
  writer := Store.writer
  deleter := Store.deleter
  NewBatch := fun _ => []
  batchWriter := { Put := fun b k v => (b ++ [Op.put k v], none) }
  batchDeleter := { Delete := fun b k => (b ++ [Op.delete k], none) }
  Write := fun s b =>
    match commit with
    | none => (s.apply b, none)
    | some e => (s, some e)

/-- A writer that only records the `Put` calls it receives, in order. -/
def traceWriter : ChainDbWriter (List Op) where
  Put := fun t k v => (t ++ [Op.put k v], none)

/-- A deleter that only records the `Delete` calls it receives, in order. -/
def traceDeleter : ChainDbDeleter (List Op) where
  Delete := fun t k => (t ++ [Op.delete k], none)

/-- Bytewise lexicographic order on byte strings, `bytes.Compare(a, b) < 0`:
the first differing byte decides, and a proper initial segment is smaller. -/
def bytesLess : Bytes → Bytes → Bool
  | [], [] => false
  | [], _ :: _ => true
  | _ :: _, [] => false
  | a :: as, b :: bs => decide (a < b) || (decide (a = b) && bytesLess as bs)

/-- Whether the byte string `a` is an initial segment of `b`
(`bytes.HasPrefix(b, a)`). -/
def isBytePrefixOf : Bytes → Bytes → Bool
  | [], _ => true
  | _ :: _, [] => false
  | a :: as, b :: bs => decide (a = b) && isBytePrefixOf as bs

/-- The fixed key prefixes and constant keys declared in `schema.go`. -/
def schemaPrefixes : List Bytes :=
  [headHeaderKey, headBlockKey, headerPrefix, headerNumberPrefix, blockBodyPrefix,
   blockReceiptsPrefix, txLookupPrefix, chainConfigPrefix, chainConfigLatestPrefix]

/-- The store states a reader can observe while a sequence of operations is
applied to `s` one by one: the state after the first operation, after the
second, and so on up to the final state. -/
def Store.reached (s : Store) : List Op → List Store
  | [] => []
  | op :: ops => s.applyOp op :: Store.reached (s.applyOp op) ops

/-- The reading "no HeaderNumber without the corresponding Header" of a store
state: whenever `ReadHeaderNumber(hash)` gives a height `n`,
`HasHeader(hash, n)` is true. -/
def HeaderNumberHasHeader (s : Store) : Prop :=
  ∀ (hash : Hash) (n : Nat), ReadHeaderNumber (Store.reader none) s hash = some n →
    HasHeader (Store.reader none) s hash n = true

/-- The list `g` is a type-group of the transactions `t`, the group of its
type: it is one of the groups of `Data()` and no other group has its type (the
type of a group being that of its first transaction, as `WriteTxLookupEntries`
takes it). -/
def Transactions.IsTypeGroup (t : Transactions) (g : List Transaction) : Prop :=
  g ∈ t.Data ∧
    ∀ g2 ∈ t.Data, g2.head?.map Transaction.TxType = g.head?.map Transaction.TxType → g2 = g

/-! ## Call sequences and spec-side readings -/

/-- A sequence of `WriteCanonicalHash(hash, number)` calls, applied in order. -/
def writeCanonicalHashes {σ : Type} (db : ChainDbWriter σ) (s : σ) (calls : List (Hash × Nat)) : σ :=
  calls.foldl (fun s call => WriteCanonicalHash db s call.1 call.2) s

/-- The hash given in the most recent call for height `n` of a call sequence,
if there is such a call. -/
def lastWritten (calls : List (Hash × Nat)) (n : Nat) : Option Hash :=
  ((calls.filter (fun call => call.2 = n)).getLast?).map Prod.fst

/-- The keys `DeleteBody` and `DeleteHeader` remove for one listed block, in
the order the facade `DeleteBlock` issues them. -/
def blockKeys (a : BlockAbstract) : List Bytes :=
  [blockBodyKey a.Height a.Hash, headerKey a.Height a.Hash, headerNumberKey a.Hash]

/-- The canonical-hash keys of the heights `i, i - 1, ..., desHeight + 1`. -/
def rollbackKeys (desHeight : Nat) : Nat → List Bytes
  | 0 => []
  | i + 1 => if i + 1 > desHeight then headerHashKey (i + 1) :: rollbackKeys desHeight i else []

/-- Apply a list of `Put(key, value)` calls to a store, in order. -/
def Store.putAll (s : Store) (ps : List (Bytes × Bytes)) : Store :=
  ps.foldl (fun s p => s.put p.1 p.2) s

/-- The entry `WriteTxLookupEntries` builds for the transaction `tx` met at
index `j` of the group `txs`. -/
def lookupEntry (block : Block) (txs : List Transaction) (j : Nat) (tx : Transaction) :
    TxLookupEntry :=
  { BlockHash := block.Hash
    BlockIndex := block.Height
    TxType := (txs.headD tx).TxType
    TxIndex := j % 2 ^ 64 }

/-- The `Put` calls of the inner loop of `WriteTxLookupEntries`, entered at
index `j` with `rest` still to visit. -/
def groupPuts (c : Deps) (block : Block) (txs : List Transaction) :
    Nat → List Transaction → List (Bytes × Bytes)
  | _, [] => []
  | j, tx :: rest =>
    (txLookupKey tx.Hash, (c.EncodeEntry (lookupEntry block txs j tx)).1) ::
      groupPuts c block txs (j + 1) rest

/-! ## Sample data

A small codec and records on which the statements are exercised. -/

/-- The hash whose 32 bytes all equal `b`. -/
def sampleHash (b : Nat) : Hash := ⟨List.replicate 32 b, by simp⟩

def sampleHeader : Header := ⟨7, sampleHash 1, [9]⟩

def sampleTx : Transaction := ⟨sampleHash 2, "transfer", [5]⟩

def sampleBody : Body := ⟨⟨[[sampleTx]]⟩⟩

def sampleBlock : Block := ⟨sampleHeader, sampleBody.Txs⟩

def sampleConfig : ChainConfig := ⟨[3, 4]⟩

def sampleEntry : TxLookupEntry := ⟨sampleHash 1, 7, "transfer", 0⟩

/-- A block whose hash is the all-zero hash, with the sample transactions. -/
def zeroHashBlock : Block := ⟨⟨7, Hash.zero, [9]⟩, sampleBody.Txs⟩

def zeroHashEntry : TxLookupEntry := ⟨Hash.zero, 7, "transfer", 0⟩

/-- A store holding one canonical mapping, height 5 to `sampleHash 3`. -/
def sampleCanonicalStore : Store := Store.empty.put (headerHashKey 5) (sampleHash 3).Bytes

/-- A store holding the lookup entry of `sampleTx` and no body. -/
def danglingStore : Store := Store.empty.put (txLookupKey sampleTx.Hash) [4, 1]

/-- A store whose header key for (7, `sampleHash 1`) holds bytes that are not
an encoded header. -/
def corruptHeaderStore : Store := Store.empty.put (headerKey 7 (sampleHash 1)) [9, 9]

/-- A second header at the height of `sampleHeader`, with another hash. -/
def forkHeader : Header := ⟨7, sampleHash 8, [6]⟩

/-- A codec over the sample records: a header is laid out as a tag, the height,
the hash and the rest; the other records are enumerated. -/
def sampleDeps : Deps where
  EncodeHeader := fun h => (1 :: (encodeBlockNumber h.Height ++ h.Hash.Bytes ++ h.rest), none)
  DecodeHeader := fun b =>
    match b with
    | 1 :: t =>
      if t.length < 40 then .error "short header"
      else .ok ⟨bigEndianUint64 (t.take 8), BytesToHash ((t.drop 8).take 32), t.drop 40⟩
    | _ => .error "not a header"
  EncodeBody := fun b => (if b = sampleBody then [2, 1] else [2, 0], none)
  DecodeBody := fun b => if b = [2, 1] then .ok sampleBody else .error "unknown body"
  EncodeReceipts := fun r => (3 :: (r.map Receipt.content).flatten, none)
  DecodeReceipts := fun b =>
    match b with
    | 3 :: t => .ok (t.map (fun x => ⟨[x]⟩))
    | _ => .error "not a receipt list"
  EncodeEntry := fun e =>
    (if e = sampleEntry then [4, 1] else if e = zeroHashEntry then [4, 2] else [4, 0], none)
  DecodeEntry := fun b =>
    if b = [4, 1] then .ok sampleEntry
    else if b = [4, 2] then .ok zeroHashEntry
    else .error "unknown entry"
  EncodeConfig := fun cfg => (5 :: cfg.content, none)
  DecodeConfig := fun b =>
    match b with
    | 5 :: t => .ok ⟨t⟩
    | _ => .error "not a chain config"
  TxTypeUnknown := ""

/-- A layout for lookup entries: a tag, the 32 bytes of the block hash, the
block index and the transaction index as 8 big-endian bytes each, and the
characters of the transaction type. -/
def encodeEntryLayout (e : TxLookupEntry) : Bytes :=
  4 :: (e.BlockHash.Bytes ++ encodeBlockNumber e.BlockIndex ++ encodeBlockNumber e.TxIndex ++
    ascii e.TxType)

/-- The decoder of the layout of `encodeEntryLayout`. -/
def decodeEntryLayout (b : Bytes) : Except String TxLookupEntry :=
  match b with
  | 4 :: t =>
    if t.length < 48 then .error "short entry"
    else
      .ok
        { BlockHash := BytesToHash (t.take 32)
          BlockIndex := bigEndianUint64 ((t.drop 32).take 8)
          TxType := String.mk ((t.drop 48).map Char.ofNat)
          TxIndex := bigEndianUint64 ((t.drop 40).take 8) }
  | _ => .error "not an entry"

/-- The sample codec with lookup entries in the layout of `encodeEntryLayout`. -/
def layoutDeps : Deps :=
  { sampleDeps with
    EncodeEntry := fun e => (encodeEntryLayout e, none)
    DecodeEntry := decodeEntryLayout }

/-- A lookup entry for `sampleTx` whose index is 2^63. -/
def overflowEntry : TxLookupEntry := ⟨sampleHash 1, 7, "transfer", 2 ^ 63⟩

/-- A store holding the body of the block (`sampleHash 1`, 7), which has one
transaction, and the lookup entry `overflowEntry` under the hash of `sampleTx`. -/
def overflowIndexStore : Store :=
  (Store.empty.put (blockBodyKey 7 (sampleHash 1)) [2, 1]).put
    (txLookupKey sampleTx.Hash) (encodeEntryLayout overflowEntry)

/-- A transaction of another type. -/
def sampleTx2 : Transaction := ⟨sampleHash 5, "deploy", [1]⟩

/-- Transactions in two type-groups of one transaction each. -/
def twoGroups : Transactions := ⟨[[sampleTx], [sampleTx2]]⟩

/-! ## Theorems: key schema -/

theorem encodeBlockNumber_length (n : Nat) : (encodeBlockNumber n).length = 8 := rfl

theorem encodeBlockNumber_value (n : Nat) :
    bigEndianValue (encodeBlockNumber n) = n % 2 ^ 64 := by
  simp only [bigEndianValue, encodeBlockNumber, List.foldl]
  omega

theorem encodeBlockNumber_inj {a b : Nat} (ha : a < 2 ^ 64) (hb : b < 2 ^ 64)
    (h : encodeBlockNumber a = encodeBlockNumber b) : a = b := by
  have hv := congrArg bigEndianValue h
  rw [encodeBlockNumber_value, encodeBlockNumber_value, Nat.mod_eq_of_lt ha,
    Nat.mod_eq_of_lt hb] at hv
  exact hv

theorem Hash.ext_bytes {a b : Hash} (h : a.bytes = b.bytes) : a = b := by
  cases a; cases b; simp only [Hash.mk.injEq]; exact h

theorem prefix_height_hash_inj (p : Bytes) {n m : Nat} {h k : Hash}
    (hn : n < 2 ^ 64) (hm : m < 2 ^ 64)
    (e : (p ++ encodeBlockNumber n) ++ h.Bytes = (p ++ encodeBlockNumber m) ++ k.Bytes) :
    n = m ∧ h = k := by
  rw [List.append_assoc, List.append_assoc] at e
  have e2 := List.append_cancel_left e
  have e3 := List.append_inj e2 (by simp [encodeBlockNumber_length])
  exact ⟨encodeBlockNumber_inj hn hm e3.1, Hash.ext_bytes e3.2⟩

/-- C1. The schema functions produce exactly the byte strings of the key
layout: the ASCII prefix, the 8-byte big-endian height, the 32 hash bytes and
the suffix, in this order; the constant keys are the ASCII strings
`LastHeader`, `LastBlock` and `cc-latest`. -/
theorem schema_keys_exact (n : Nat) (h : Hash) :
    (encodeBlockNumber n).length = 8 ∧
      (∀ b ∈ encodeBlockNumber n, b < 256) ∧
      bigEndianValue (encodeBlockNumber n) = n % 2 ^ 64 ∧
      h.Bytes.length = 32 ∧
      headerHashKey n = [104] ++ encodeBlockNumber n ++ [110] ∧
      headerKey n h = [104] ++ encodeBlockNumber n ++ h.Bytes ∧
      headerNumberKey h = [72] ++ h.Bytes ∧
      blockBodyKey n h = [98] ++ encodeBlockNumber n ++ h.Bytes ∧
      blockReceiptsKey n h = [114] ++ encodeBlockNumber n ++ h.Bytes ∧
      txLookupKey h = [108] ++ h.Bytes ∧
      chainConfigKey h = [99, 99, 45] ++ h.Bytes ∧
      chainConfigHeightKey n = [99, 99, 45] ++ encodeBlockNumber n ∧
      headHeaderKey = [76, 97, 115, 116, 72, 101, 97, 100, 101, 114] ∧
      headBlockKey = [76, 97, 115, 116, 66, 108, 111, 99, 107] ∧
      chainConfigLatestPrefix = [99, 99, 45, 108, 97, 116, 101, 115, 116] := by
  refine ⟨rfl, ?_, encodeBlockNumber_value n, h.len, rfl, rfl, rfl, rfl, rfl, rfl, rfl, rfl,
    by decide, by decide, by decide⟩
  intro b hb
  simp only [encodeBlockNumber, List.mem_cons, List.mem_singleton, List.not_mem_nil, or_false] at hb
  omega

/-- C2. The key schema is collision-free: two entities whose heights are
`uint64` values and whose hashes are 32-byte hashes get the same key only if
they are the same entity, that is the same kind with the same height and the
same hash. -/
theorem schema_collision_free (a b : SchemaKey) (ha : a.InRange) (hb : b.InRange)
    (h : a.key = b.key) : a = b := by
  have hl := congrArg List.length h
  have hh := congrArg List.head? h
  cases a <;> cases b <;>
    simp [SchemaKey.key, headHeaderKey, headBlockKey, chainConfigLatestPrefix, headerHashKey,
      headerKey, headerNumberKey, blockBodyKey, blockReceiptsKey, txLookupKey, chainConfigKey,
      chainConfigHeightKey, headerPrefix, headerHashSuffix, headerNumberPrefix, blockBodyPrefix,
      blockReceiptsPrefix, txLookupPrefix, chainConfigPrefix, ascii, Hash.Bytes, Hash.len,
      encodeBlockNumber_length] at hl hh
  case headHeader.headHeader => rfl
  case headBlock.headBlock => rfl
  case chainConfigLatest.chainConfigLatest => rfl
  case headerHash.headerHash n m =>
    simp only [SchemaKey.key, headerHashKey] at h
    have e := List.append_cancel_left (List.append_cancel_right h)
    rw [encodeBlockNumber_inj ha hb e]
  case header.header n x m y =>
    obtain ⟨e1, e2⟩ := prefix_height_hash_inj _ ha hb h
    rw [e1, e2]
  case headerNumber.headerNumber x y =>
    rw [Hash.ext_bytes (List.append_cancel_left h)]
  case blockBody.blockBody n x m y =>
    obtain ⟨e1, e2⟩ := prefix_height_hash_inj _ ha hb h
    rw [e1, e2]
  case blockReceipts.blockReceipts n x m y =>
    obtain ⟨e1, e2⟩ := prefix_height_hash_inj _ ha hb h
    rw [e1, e2]
  case txLookup.txLookup x y =>
    rw [Hash.ext_bytes (List.append_cancel_left h)]
  case chainConfig.chainConfig x y =>
    rw [Hash.ext_bytes (List.append_cancel_left h)]
  case chainConfigHeight.chainConfigHeight n m =>
    rw [encodeBlockNumber_inj ha hb (List.append_cancel_left h)]

theorem schema_collision_free_witness :
    (SchemaKey.header 7 (sampleHash 1)).InRange ∧
      (SchemaKey.header 7 (sampleHash 1)).key = headerKey 7 (sampleHash 1) ∧
      SchemaKey.header 7 (sampleHash 1) = SchemaKey.header 7 (sampleHash 1) :=
  ⟨by simp [SchemaKey.InRange], rfl,
    schema_collision_free (.header 7 (sampleHash 1)) (.header 7 (sampleHash 1))
      (by simp [SchemaKey.InRange]) (by simp [SchemaKey.InRange]) rfl⟩

/-! ## Theorems: the reference store -/

theorem Store.get_put_same (nf : Error) (s : Store) (k v : Bytes) :
    (Store.reader nf).Get (s.put k v) k = (v, none) := by
  simp [Store.reader, Store.put]

theorem Store.get_put_other (nf : Error) (s : Store) {k k2 : Bytes} (v : Bytes) (h : k2 ≠ k) :
    (Store.reader nf).Get (s.put k v) k2 = (Store.reader nf).Get s k2 := by
  simp [Store.reader, Store.put, h]

theorem Store.put_same (s : Store) (k v : Bytes) : (s.put k v) k = some v := by
  simp [Store.put]

theorem Store.put_other (s : Store) {k k2 : Bytes} (v : Bytes) (h : k2 ≠ k) :
    (s.put k v) k2 = s k2 := by
  simp [Store.put, h]

theorem Store.get_absent (nf : Error) (s : Store) (k : Bytes) (h : s k = none) :
    (Store.reader nf).Get s k = ([], nf) := by
  simp [Store.reader, h]

theorem Store.get_present (nf : Error) (s : Store) (k v : Bytes) (h : s k = some v) :
    (Store.reader nf).Get s k = (v, none) := by
  simp [Store.reader, h]

theorem Store.writer_put (s : Store) (k v : Bytes) : (Store.writer.Put s k v).1 = s.put k v := rfl

theorem BytesToHash_bytes (h : Hash) : BytesToHash h.Bytes = h := by
  apply Hash.ext_bytes
  simp [BytesToHash, Hash.Bytes, h.len]

theorem Hash.Bytes_length (h : Hash) : h.Bytes.length = 32 := h.len

theorem headerKey_ne_headerNumberKey (n : Nat) (h k : Hash) : headerKey n h ≠ headerNumberKey k := by
  intro e
  have := congrArg List.length e
  simp [headerKey, headerNumberKey, headerPrefix, headerNumberPrefix, ascii,
    encodeBlockNumber_length, Hash.Bytes_length] at this

/-! ## Theorems: headers -/

/-- C3. For every store `s` and header (any height, any hash), if the codec
encodes the header to a non-empty byte string which it decodes back to the
header, then after `WriteHeader` both `ReadHeader(header.Hash(), header.Height)`
returns the header written and `HasHeader(header.Hash(), header.Height)` is
true. -/
theorem WriteHeader_then_ReadHeader (c : Deps) (notFound : Error) (s : Store) (header : Header)
    (hne : (c.EncodeHeader header).1 ≠ [])
    (hdec : c.DecodeHeader (c.EncodeHeader header).1 = .ok header) :
    ReadHeader c (Store.reader notFound) (WriteHeader c Store.writer s header)
        header.Hash header.Height = some header ∧
      HasHeader (Store.reader notFound) (WriteHeader c Store.writer s header)
        header.Hash header.Height = true := by
  constructor
  · simp only [ReadHeader, ReadHeaderRLP, WriteHeader, Store.writer_put, Store.get_put_same]
    rw [if_neg (by simpa using hne), hdec]
  · simp [HasHeader, WriteHeader, Store.writer, Store.reader, Store.put]

theorem WriteHeader_then_ReadHeader_witness :
    (sampleDeps.EncodeHeader sampleHeader).1 ≠ [] ∧
      sampleDeps.DecodeHeader (sampleDeps.EncodeHeader sampleHeader).1 = .ok sampleHeader ∧
      ReadHeader sampleDeps (Store.reader none)
        (WriteHeader sampleDeps Store.writer Store.empty sampleHeader)
        sampleHeader.Hash sampleHeader.Height = some sampleHeader ∧
      HasHeader (Store.reader none)
        (WriteHeader sampleDeps Store.writer Store.empty sampleHeader)
        sampleHeader.Hash sampleHeader.Height = true :=
  ⟨by decide, by rfl,
    WriteHeader_then_ReadHeader sampleDeps none Store.empty sampleHeader (by decide) (by rfl)⟩

/-! ## Theorems: canonical hashes -/

theorem headerHashKey_inj {n m : Nat} (hn : n < 2 ^ 64) (hm : m < 2 ^ 64)
    (h : headerHashKey n = headerHashKey m) : n = m := by
  simp only [headerHashKey] at h
  exact encodeBlockNumber_inj hn hm (List.append_cancel_left (List.append_cancel_right h))

theorem ReadCanonicalHash_write_same (nf : Error) (s : Store) (h : Hash) (n : Nat) :
    ReadCanonicalHash (Store.reader nf) (WriteCanonicalHash Store.writer s h n) n = h := by
  simp only [ReadCanonicalHash, WriteCanonicalHash, Store.writer_put, Store.get_put_same]
  rw [if_neg (by simp [Hash.Bytes_length]), BytesToHash_bytes]

theorem ReadCanonicalHash_write_other (nf : Error) (s : Store) (h : Hash) {n m : Nat}
    (hn : n < 2 ^ 64) (hm : m < 2 ^ 64) (hne : m ≠ n) :
    ReadCanonicalHash (Store.reader nf) (WriteCanonicalHash Store.writer s h m) n =
      ReadCanonicalHash (Store.reader nf) s n := by
  have hk : headerHashKey n ≠ headerHashKey m := fun e => hne (headerHashKey_inj hn hm e).symm
  simp only [ReadCanonicalHash, WriteCanonicalHash, Store.writer_put, Store.get_put_other nf s _ hk]

theorem writeCanonicalHashes_snoc (s : Store) (calls : List (Hash × Nat)) (call : Hash × Nat) :
    writeCanonicalHashes Store.writer s (calls ++ [call]) =
      WriteCanonicalHash Store.writer (writeCanonicalHashes Store.writer s calls) call.1 call.2 := by
  simp [writeCanonicalHashes, List.foldl_append]

theorem lastWritten_snoc (calls : List (Hash × Nat)) (call : Hash × Nat) (n : Nat) :
    lastWritten (calls ++ [call]) n =
      if call.2 = n then some call.1 else lastWritten calls n := by
  by_cases h : call.2 = n
  · simp [lastWritten, List.filter_append, h]
  · simp [lastWritten, List.filter_append, h]

theorem ReadCanonicalHash_writes (nf : Error) (s : Store) (calls : List (Hash × Nat)) (n : Nat)
    (hn : n < 2 ^ 64) (hcalls : ∀ call ∈ calls, call.2 < 2 ^ 64) :
    ReadCanonicalHash (Store.reader nf) (writeCanonicalHashes Store.writer s calls) n =
      (lastWritten calls n).getD (ReadCanonicalHash (Store.reader nf) s n) := by
  induction calls using List.reverseRecOn with
  | nil => simp [writeCanonicalHashes, lastWritten]
  | append_singleton calls call ih =>
    rw [writeCanonicalHashes_snoc, lastWritten_snoc]
    have hc : call.2 < 2 ^ 64 := hcalls call (by simp)
    by_cases h : call.2 = n
    · rw [if_pos h, ← h, ReadCanonicalHash_write_same]; rfl
    · rw [if_neg h, ReadCanonicalHash_write_other nf _ _ hn hc h]
      exact ih (fun x hx => hcalls x (by simp [hx]))

/-- C4. After any sequence of `WriteCanonicalHash` calls (heights are `uint64`)
on a store, `ReadCanonicalHash(n)` is the hash of the most recent call for
height `n`, whatever was written at other heights; and when the store held no
mapping for `n` and no call was for `n`, it is the all-zero hash, which the
facade returns with a nil error. -/
theorem ReadCanonicalHash_last_write_wins (notFound commit : Error) (s : Store)
    (calls : List (Hash × Nat)) (n : Nat)
    (hn : n < 2 ^ 64) (hcalls : ∀ call ∈ calls, call.2 < 2 ^ 64) :
    (∀ h, lastWritten calls n = some h →
        ReadCanonicalHash (Store.reader notFound)
          (writeCanonicalHashes Store.writer s calls) n = h) ∧
      (lastWritten calls n = none → s (headerHashKey n) = none →
        ReadCanonicalHash (Store.reader notFound)
          (writeCanonicalHashes Store.writer s calls) n = Hash.zero ∧
        kvStore.GetCanonicalHash (Store.database notFound commit)
          (writeCanonicalHashes Store.writer s calls) n = (Hash.zero, none)) := by
  have key := ReadCanonicalHash_writes notFound s calls n hn hcalls
  refine ⟨fun h hl => ?_, fun hl hs => ?_⟩
  · rw [key, hl]; rfl
  · have h0 : ReadCanonicalHash (Store.reader notFound) s n = Hash.zero := by
      simp [ReadCanonicalHash, Store.get_absent notFound s _ hs]
    have h1 : ReadCanonicalHash (Store.reader notFound)
        (writeCanonicalHashes Store.writer s calls) n = Hash.zero := by
      rw [key, hl]; exact h0
    exact ⟨h1, by simp only [kvStore.GetCanonicalHash, Store.database]; rw [h1]⟩

theorem ReadCanonicalHash_last_write_wins_witness :
    (3 < 2 ^ 64) ∧
      (∀ call ∈ [(sampleHash 1, 3), (sampleHash 2, 5), (sampleHash 4, 3)], call.2 < 2 ^ 64) ∧
      lastWritten [(sampleHash 1, 3), (sampleHash 2, 5), (sampleHash 4, 3)] 3
        = some (sampleHash 4) ∧
      ReadCanonicalHash (Store.reader none)
        (writeCanonicalHashes Store.writer Store.empty
          [(sampleHash 1, 3), (sampleHash 2, 5), (sampleHash 4, 3)]) 3 = sampleHash 4 :=
  ⟨by decide, by decide, by decide,
    (ReadCanonicalHash_last_write_wins none none Store.empty
      [(sampleHash 1, 3), (sampleHash 2, 5), (sampleHash 4, 3)] 3 (by decide) (by decide)).1
      (sampleHash 4) (by decide)⟩

/-! ## Theorems: blocks -/

theorem blockBodyKey_ne_headerKey (n m : Nat) (h k : Hash) : blockBodyKey n h ≠ headerKey m k := by
  intro e
  have := congrArg List.head? e
  simp [blockBodyKey, headerKey, blockBodyPrefix, headerPrefix, ascii] at this

theorem blockBodyKey_ne_headerNumberKey (n : Nat) (h k : Hash) :
    blockBodyKey n h ≠ headerNumberKey k := by
  intro e
  have := congrArg List.head? e
  simp [blockBodyKey, headerNumberKey, blockBodyPrefix, headerNumberPrefix, ascii] at this

theorem ReadHeader_absent (c : Deps) (nf : Error) (s : Store) (hash : Hash) (number : Nat)
    (h : s (headerKey number hash) = none) :
    ReadHeader c (Store.reader nf) s hash number = none := by
  simp [ReadHeader, ReadHeaderRLP, Store.get_absent nf s _ h]

theorem ReadBody_absent (c : Deps) (nf : Error) (s : Store) (hash : Hash) (number : Nat)
    (h : s (blockBodyKey number hash) = none) :
    ReadBody c (Store.reader nf) s hash number = none := by
  simp [ReadBody, ReadBodyRLP, Store.get_absent nf s _ h]

theorem ReadHeader_present (c : Deps) (nf : Error) (s : Store) (hash : Hash) (number : Nat)
    (data : Bytes) (header : Header) (h : s (headerKey number hash) = some data)
    (hne : data ≠ []) (hdec : c.DecodeHeader data = .ok header) :
    ReadHeader c (Store.reader nf) s hash number = some header := by
  simp only [ReadHeader, ReadHeaderRLP, Store.get_present nf s _ _ h]
  rw [if_neg (by simpa using hne), hdec]

theorem ReadBody_present (c : Deps) (nf : Error) (s : Store) (hash : Hash) (number : Nat)
    (data : Bytes) (body : Body) (h : s (blockBodyKey number hash) = some data)
    (hne : data ≠ []) (hdec : c.DecodeBody data = .ok body) :
    ReadBody c (Store.reader nf) s hash number = some body := by
  simp only [ReadBody, ReadBodyRLP, Store.get_present nf s _ _ h]
  rw [if_neg (by simpa using hne), hdec]

theorem ReadBlock_of_body_none (c : Deps) (nf : Error) (s : Store) (hash : Hash) (number : Nat)
    (h : ReadBody c (Store.reader nf) s hash number = none) :
    ReadBlock c (Store.reader nf) s hash number = none := by
  simp only [ReadBlock, h]
  cases ReadHeader c (Store.reader nf) s hash number <;> rfl

/-- C5. `ReadBlock(hash, height)` is nil when the header record under
(height, hash) is missing, and when the body record is missing, in particular
after a `WriteHeader` on a store without that body; when both records hold
non-empty bytes that decode, it is the block made by `NewBlock` from that
decoded header and the transactions of that decoded body. -/
theorem ReadBlock_needs_header_and_body (c : Deps) (notFound : Error) (s : Store)
    (hash : Hash) (number : Nat) :
    (s (headerKey number hash) = none →
        ReadBlock c (Store.reader notFound) s hash number = none) ∧
      (s (blockBodyKey number hash) = none →
        ReadBlock c (Store.reader notFound) s hash number = none) ∧
      (∀ header : Header, header.Hash = hash → header.Height = number →
        s (blockBodyKey number hash) = none →
        ReadBlock c (Store.reader notFound) (WriteHeader c Store.writer s header)
          hash number = none) ∧
      (∀ (hdata bdata : Bytes) (header : Header) (body : Body),
        s (headerKey number hash) = some hdata → hdata ≠ [] →
        c.DecodeHeader hdata = .ok header →
        s (blockBodyKey number hash) = some bdata → bdata ≠ [] →
        c.DecodeBody bdata = .ok body →
        ReadBlock c (Store.reader notFound) s hash number =
          some (NewBlock header body.Txs [])) := by
  refine ⟨fun h => ?_, fun h => ?_, fun header hh hn hb => ?_, ?_⟩
  · simp [ReadBlock, ReadHeader_absent c notFound s hash number h]
  · exact ReadBlock_of_body_none c notFound s hash number
      (ReadBody_absent c notFound s hash number h)
  · apply ReadBlock_of_body_none
    apply ReadBody_absent
    simp only [WriteHeader, Store.writer_put]
    rw [Store.put_other _ _ (blockBodyKey_ne_headerKey _ _ _ _),
      Store.put_other _ _ (blockBodyKey_ne_headerNumberKey _ _ _)]
    exact hb
  · intro hdata bdata header body h1 h2 h3 h4 h5 h6
    simp [ReadBlock, ReadHeader_present c notFound s hash number hdata header h1 h2 h3,
      ReadBody_present c notFound s hash number bdata body h4 h5 h6]

/-! ## Theorems: rollback -/

theorem Store.apply_snoc (s : Store) (b : List Op) (op : Op) :
    s.apply (b ++ [op]) = (s.apply b).applyOp op := by
  simp [Store.apply, List.foldl_append]

theorem Store.apply_deletes (s : Store) (b : List Op) (ks : List Bytes) (k : Bytes) :
    s.apply (b ++ ks.map Op.delete) k = if k ∈ ks then none else s.apply b k := by
  induction ks generalizing b with
  | nil => simp
  | cons x xs ih =>
    have e : b ++ (x :: xs).map Op.delete = (b ++ [Op.delete x]) ++ xs.map Op.delete := by simp
    rw [e, ih, Store.apply_snoc]
    by_cases h1 : k ∈ xs
    · simp [h1]
    · by_cases h2 : k = x
      · simp [h2, Store.applyOp, Store.delete]
      · simp [h1, h2, Store.applyOp, Store.delete]

theorem DeleteBlock_blocks_batch (nf cm : Error) (blockAbs : List BlockAbstract) (b : List Op) :
    blockAbs.foldl
      (fun batch a =>
        let batch := DeleteBody (Store.database nf cm).batchDeleter batch a.Hash a.Height
        DeleteHeader (Store.database nf cm).batchDeleter batch a.Hash a.Height) b
      = b ++ (blockAbs.flatMap blockKeys).map Op.delete := by
  induction blockAbs generalizing b with
  | nil => simp
  | cons a rest ih =>
    rw [List.foldl_cons, ih]
    simp [DeleteBody, DeleteHeader, Store.database, blockKeys]

theorem DeleteBlock_rollback_batch (nf cm : Error) (desHeight i : Nat) (b : List Op) :
    kvStore.DeleteBlock.rollback (Store.database nf cm).batchDeleter desHeight i b
      = b ++ (rollbackKeys desHeight i).map Op.delete := by
  induction i generalizing b with
  | zero => simp [kvStore.DeleteBlock.rollback, rollbackKeys]
  | succ i ih =>
    by_cases h : i + 1 > desHeight
    · simp only [kvStore.DeleteBlock.rollback, rollbackKeys, if_pos h, ih]
      simp [DeleteCanonicalHash, Store.database]
    · simp [kvStore.DeleteBlock.rollback, rollbackKeys, if_neg h]

theorem mem_rollbackKeys (desHeight i : Nat) (k : Bytes) :
    k ∈ rollbackKeys desHeight i ↔ ∃ j, desHeight < j ∧ j ≤ i ∧ k = headerHashKey j := by
  induction i with
  | zero =>
    simp only [rollbackKeys, List.not_mem_nil, false_iff]
    rintro ⟨j, h1, h2, -⟩
    omega
  | succ i ih =>
    by_cases h : i + 1 > desHeight
    · simp only [rollbackKeys, if_pos h, List.mem_cons, ih]
      constructor
      · rintro (e | ⟨j, h1, h2, h3⟩)
        · exact ⟨i + 1, h, le_refl _, e⟩
        · exact ⟨j, h1, by omega, h3⟩
      · rintro ⟨j, h1, h2, h3⟩
        by_cases hj : j = i + 1
        · left; rw [h3, hj]
        · right; exact ⟨j, h1, by omega, h3⟩
    · simp only [rollbackKeys, if_neg h, List.not_mem_nil, false_iff]
      rintro ⟨j, h1, h2, -⟩
      omega

/-- The store left by a committed facade `DeleteBlock`: a key is absent if it
is one of the keys of the listed blocks or the canonical-hash key of a height
in `(desHeight, currentHeight]`, and is unchanged otherwise. -/
theorem DeleteBlock_committed (nf : Error) (s : Store) (blockAbs : List BlockAbstract)
    (currentHeight desHeight : Nat) (k : Bytes) :
    (kvStore.DeleteBlock (Store.database nf none) s blockAbs currentHeight desHeight).2 = none ∧
    (kvStore.DeleteBlock (Store.database nf none) s blockAbs currentHeight desHeight).1 k =
      if k ∈ blockAbs.flatMap blockKeys ++ rollbackKeys desHeight currentHeight then none
      else s k := by
  have hb := DeleteBlock_blocks_batch nf none blockAbs []
  have e : (kvStore.DeleteBlock (Store.database nf none) s blockAbs currentHeight desHeight) =
      (s.apply ([] ++ (blockAbs.flatMap blockKeys ++ rollbackKeys desHeight currentHeight).map
        Op.delete), none) := by
    unfold kvStore.DeleteBlock
    simp only []
    have h0 : (Store.database nf none).NewBatch s = [] := rfl
    rw [h0, hb]
    by_cases h : currentHeight > desHeight
    · rw [if_pos h, DeleteBlock_rollback_batch]
      simp [Store.database]
    · have hk : rollbackKeys desHeight currentHeight = [] := by
        cases currentHeight with
        | zero => rfl
        | succ i => simp [rollbackKeys, h]
      rw [if_neg h, hk]
      simp [Store.database]
  rw [e]
  refine ⟨rfl, ?_⟩
  show s.apply ([] ++ (blockAbs.flatMap blockKeys ++ rollbackKeys desHeight currentHeight).map
    Op.delete) k = _
  rw [Store.apply_deletes]
  simp [Store.apply]

theorem headerHashKey_not_mem_blockKeys (n : Nat) (blockAbs : List BlockAbstract) :
    headerHashKey n ∉ blockAbs.flatMap blockKeys := by
  intro h
  rw [List.mem_flatMap] at h
  obtain ⟨a, -, ha⟩ := h
  simp only [blockKeys, List.mem_cons, List.mem_singleton, List.not_mem_nil, or_false] at ha
  have hl : (headerHashKey n).length = 10 := by
    simp [headerHashKey, headerPrefix, headerHashSuffix, ascii, encodeBlockNumber_length]
  rcases ha with e | e | e <;> rw [e] at hl <;>
    simp [blockBodyKey, headerKey, headerNumberKey, blockBodyPrefix, headerPrefix,
      headerNumberPrefix, ascii, encodeBlockNumber_length, Hash.Bytes_length] at hl

/-- C6, the claim as stated fails: a canonical mapping at height 5 survives the
committed rollback `DeleteBlock([], 3, 1)` although 5 is strictly above the
target height 1. -/
theorem DeleteBlock_keeps_canonical_above_currentHeight :
    (kvStore.DeleteBlock (Store.database none none) sampleCanonicalStore [] 3 1).2 = none ∧
      1 < 5 ∧
      ReadCanonicalHash (Store.reader none)
        (kvStore.DeleteBlock (Store.database none none) sampleCanonicalStore [] 3 1).1 5
        ≠ Hash.zero := by
  decide

/-- C6, amended. A committed facade `DeleteBlock(blockAbs, currentHeight,
desHeight)` leaves a store in which every listed block has no header record
and no body record, `ReadCanonicalHash(i)` is the zero hash for every height
`i` with `desHeight < i ≤ currentHeight`, and the canonical entry at
`desHeight` is unchanged. -/
theorem DeleteBlock_rollback_effect (notFound : Error) (s : Store)
    (blockAbs : List BlockAbstract) (currentHeight desHeight : Nat)
    (hcur : currentHeight < 2 ^ 64) :
    (kvStore.DeleteBlock (Store.database notFound none) s blockAbs currentHeight desHeight).2
        = none ∧
      (∀ a ∈ blockAbs,
        (kvStore.DeleteBlock (Store.database notFound none) s blockAbs currentHeight
          desHeight).1 (headerKey a.Height a.Hash) = none ∧
        (kvStore.DeleteBlock (Store.database notFound none) s blockAbs currentHeight
          desHeight).1 (blockBodyKey a.Height a.Hash) = none ∧
        HasHeader (Store.reader notFound)
          (kvStore.DeleteBlock (Store.database notFound none) s blockAbs currentHeight
            desHeight).1 a.Hash a.Height = false ∧
        HasBody (Store.reader notFound)
          (kvStore.DeleteBlock (Store.database notFound none) s blockAbs currentHeight
            desHeight).1 a.Hash a.Height = false) ∧
      (∀ i, desHeight < i → i ≤ currentHeight →
        ReadCanonicalHash (Store.reader notFound)
          (kvStore.DeleteBlock (Store.database notFound none) s blockAbs currentHeight
            desHeight).1 i = Hash.zero) ∧
      (kvStore.DeleteBlock (Store.database notFound none) s blockAbs currentHeight
          desHeight).1 (headerHashKey desHeight) = s (headerHashKey desHeight) ∧
      ReadCanonicalHash (Store.reader notFound)
          (kvStore.DeleteBlock (Store.database notFound none) s blockAbs currentHeight
            desHeight).1 desHeight = ReadCanonicalHash (Store.reader notFound) s desHeight := by
  have key := fun k => (DeleteBlock_committed notFound s blockAbs currentHeight desHeight k).2
  have hdes : (kvStore.DeleteBlock (Store.database notFound none) s blockAbs currentHeight
      desHeight).1 (headerHashKey desHeight) = s (headerHashKey desHeight) := by
    rw [key, if_neg]
    rw [List.mem_append, not_or]
    refine ⟨headerHashKey_not_mem_blockKeys _ _, ?_⟩
    rw [mem_rollbackKeys]
    rintro ⟨j, h1, h2, h3⟩
    have := headerHashKey_inj (by omega) (by omega) h3
    omega
  refine ⟨(DeleteBlock_committed notFound s blockAbs currentHeight desHeight []).1, ?_, ?_,
    hdes, ?_⟩
  · intro a ha
    have h1 : headerKey a.Height a.Hash ∈
        blockAbs.flatMap blockKeys ++ rollbackKeys desHeight currentHeight :=
      List.mem_append_left _ (List.mem_flatMap.mpr ⟨a, ha, by simp [blockKeys]⟩)
    have h2 : blockBodyKey a.Height a.Hash ∈
        blockAbs.flatMap blockKeys ++ rollbackKeys desHeight currentHeight :=
      List.mem_append_left _ (List.mem_flatMap.mpr ⟨a, ha, by simp [blockKeys]⟩)
    have e1 := key (headerKey a.Height a.Hash)
    have e2 := key (blockBodyKey a.Height a.Hash)
    rw [if_pos h1] at e1
    rw [if_pos h2] at e2
    refine ⟨e1, e2, ?_, ?_⟩
    · simp [HasHeader, Store.reader, e1]
    · simp [HasBody, Store.reader, e2]
  · intro i h1 h2
    have hm : headerHashKey i ∈
        blockAbs.flatMap blockKeys ++ rollbackKeys desHeight currentHeight :=
      List.mem_append_right _ ((mem_rollbackKeys _ _ _).mpr ⟨i, h1, h2, rfl⟩)
    have e := key (headerHashKey i)
    rw [if_pos hm] at e
    simp [ReadCanonicalHash, Store.get_absent notFound _ _ e]
  · simp only [ReadCanonicalHash, Store.reader, hdes]

theorem DeleteBlock_rollback_effect_witness :
    (3 : Nat) < 2 ^ 64 ∧
      (∀ i, 1 < i → i ≤ 3 →
        ReadCanonicalHash (Store.reader none)
          (kvStore.DeleteBlock (Store.database none none) sampleCanonicalStore
            [⟨sampleHash 1, 2⟩] 3 1).1 i = Hash.zero) :=
  ⟨by decide,
    (DeleteBlock_rollback_effect none sampleCanonicalStore [⟨sampleHash 1, 2⟩] 3 1
      (by decide)).2.2.1⟩

/-- C7. If the batch commit inside the facade `DeleteBlock` fails with an
error, `DeleteBlock` returns that error and the store is the store before the
call: no canonical pointer, header, header-number or body record is removed.
This holds on the reference engine and on every engine whose failed commit
leaves the store as it was, since `DeleteBlock` touches the store through the
commit only. -/
theorem DeleteBlock_commit_failure_atomic (notFound : Error) (e : String) (s : Store)
    (blockAbs : List BlockAbstract) (currentHeight desHeight : Nat) :
    kvStore.DeleteBlock (Store.database notFound (some e)) s blockAbs currentHeight desHeight
        = (s, some e) ∧
      (∀ (σ β : Type) (db : Database σ β) (t : σ),
        (∀ batch, db.Write t batch = (t, some e)) →
        kvStore.DeleteBlock db t blockAbs currentHeight desHeight = (t, some e)) := by
  constructor
  · simp [kvStore.DeleteBlock, Store.database]
  · intro σ β db t hfail
    unfold kvStore.DeleteBlock
    exact hfail _

/-! ## Theorems: chain configuration -/

theorem chainConfigKey_ne_chainConfigHeightKey (h : Hash) (n : Nat) :
    chainConfigKey h ≠ chainConfigHeightKey n := by
  intro e
  have := congrArg List.length e
  simp [chainConfigKey, chainConfigHeightKey, chainConfigPrefix, ascii,
    encodeBlockNumber_length, Hash.Bytes_length] at this

theorem chainConfigKey_ne_latest (h : Hash) : chainConfigKey h ≠ chainConfigLatestPrefix := by
  intro e
  have := congrArg List.length e
  simp [chainConfigKey, chainConfigLatestPrefix, chainConfigPrefix, ascii,
    Hash.Bytes_length] at this

theorem chainConfigHeightKey_ne_latest (n : Nat) :
    chainConfigHeightKey n ≠ chainConfigLatestPrefix := by
  intro e
  have := congrArg List.length e
  simp [chainConfigHeightKey, chainConfigLatestPrefix, chainConfigPrefix, ascii,
    encodeBlockNumber_length] at this

theorem ReadChainConfigByHash_present (c : Deps) (nf : Error) (s : Store) (bHash : Hash)
    (data : Bytes) (cfg : ChainConfig) (h : s (chainConfigKey bHash) = some data)
    (hne : data ≠ []) (hdec : c.DecodeConfig data = .ok cfg) :
    ReadChainConfigByHash c (Store.reader nf) s bHash = (some cfg, none) := by
  simp only [ReadChainConfigByHash, Store.get_present nf s _ _ h]
  rw [if_neg (by simpa using hne), hdec]

/-- C8. For every store, hash, height and non-nil config, if the codec encodes
the config without error to a non-empty byte string which it decodes back to
the config, then `WriteChainConfig(hash, height, cfg)` returns nil and
afterwards `ReadChainConfigByHash(hash)`, `ReadChainConfigByHeight(height)` and
`ReadChainConfigLatest()` each return the config with a nil error. -/
theorem WriteChainConfig_then_read (c : Deps) (notFound : Error) (s : Store) (bHash : Hash)
    (height : Nat) (cfg : ChainConfig)
    (herr : (c.EncodeConfig cfg).2 = none)
    (hne : (c.EncodeConfig cfg).1 ≠ [])
    (hdec : c.DecodeConfig (c.EncodeConfig cfg).1 = .ok cfg) :
    (WriteChainConfig c Store.writer s bHash height (some cfg)).2 = none ∧
      ReadChainConfigByHash c (Store.reader notFound)
        (WriteChainConfig c Store.writer s bHash height (some cfg)).1 bHash
        = (some cfg, none) ∧
      ReadChainConfigByHeight c (Store.reader notFound)
        (WriteChainConfig c Store.writer s bHash height (some cfg)).1 height
        = (some cfg, none) ∧
      ReadChainConfigLatest c (Store.reader notFound)
        (WriteChainConfig c Store.writer s bHash height (some cfg)).1
        = (some cfg, none) := by
  have hw : WriteChainConfig c Store.writer s bHash height (some cfg) =
      ((((s.put (chainConfigKey bHash) (c.EncodeConfig cfg).1).put
        (chainConfigHeightKey height) bHash.Bytes).put
        chainConfigLatestPrefix bHash.Bytes), none) := by
    simp [WriteChainConfig, herr, Store.writer]
  rw [hw]
  have hcfg : (((s.put (chainConfigKey bHash) (c.EncodeConfig cfg).1).put
        (chainConfigHeightKey height) bHash.Bytes).put
        chainConfigLatestPrefix bHash.Bytes) (chainConfigKey bHash)
        = some (c.EncodeConfig cfg).1 := by
    rw [Store.put_other _ _ (chainConfigKey_ne_latest _),
      Store.put_other _ _ (chainConfigKey_ne_chainConfigHeightKey _ _), Store.put_same]
  have hbyHash := ReadChainConfigByHash_present c notFound _ bHash _ cfg hcfg hne hdec
  have hheight : (((s.put (chainConfigKey bHash) (c.EncodeConfig cfg).1).put
        (chainConfigHeightKey height) bHash.Bytes).put
        chainConfigLatestPrefix bHash.Bytes) (chainConfigHeightKey height)
        = some bHash.Bytes := by
    rw [Store.put_other _ _ (chainConfigHeightKey_ne_latest _), Store.put_same]
  refine ⟨rfl, hbyHash, ?_, ?_⟩
  · simp only [ReadChainConfigByHeight, Store.get_present notFound _ _ _ hheight]
    rw [if_neg (by simp [Hash.Bytes_length]), BytesToHash_bytes]
    exact hbyHash
  · simp only [ReadChainConfigLatest, Store.get_put_same]
    rw [if_neg (by simp [Hash.Bytes_length]), BytesToHash_bytes]
    exact hbyHash

theorem WriteChainConfig_then_read_witness :
    (sampleDeps.EncodeConfig sampleConfig).2 = none ∧
      (sampleDeps.EncodeConfig sampleConfig).1 ≠ [] ∧
      sampleDeps.DecodeConfig (sampleDeps.EncodeConfig sampleConfig).1 = .ok sampleConfig ∧
      ReadChainConfigByHeight sampleDeps (Store.reader none)
        (WriteChainConfig sampleDeps Store.writer Store.empty (sampleHash 1) 7
          (some sampleConfig)).1 7 = (some sampleConfig, none) :=
  ⟨by rfl, by decide, by rfl,
    (WriteChainConfig_then_read sampleDeps none Store.empty (sampleHash 1) 7 sampleConfig
      (by rfl) (by decide) (by rfl)).2.2.1⟩

/-- C9. For every writer, store state, hash and height,
`WriteChainConfig(hash, height, nil)` returns a non-nil error and leaves the
state as it was: no `Put` is issued, whatever the writer does on a `Put`. -/
theorem WriteChainConfig_nil_rejected {σ : Type} (c : Deps) (db : ChainDbWriter σ) (s : σ)
    (bHash : Hash) (height : Nat) :
    (WriteChainConfig c db s bHash height none).2 ≠ none ∧
      (WriteChainConfig c db s bHash height none).1 = s ∧
      (WriteChainConfig c (Store.database none none).batchWriter [] bHash height none).1 = [] := by
  simp [WriteChainConfig]

/-! ## Theorems: transaction lookup -/

theorem Store.putAll_append (s : Store) (ps qs : List (Bytes × Bytes)) :
    s.putAll (ps ++ qs) = (s.putAll ps).putAll qs := by
  simp [Store.putAll, List.foldl_append]

theorem Store.putAll_not_mem (s : Store) (ps : List (Bytes × Bytes)) (k : Bytes)
    (h : k ∉ ps.map Prod.fst) : s.putAll ps k = s k := by
  induction ps generalizing s with
  | nil => rfl
  | cons p rest ih =>
    simp only [List.map_cons, List.mem_cons, not_or] at h
    show (s.put p.1 p.2).putAll rest k = s k
    rw [ih _ h.2, Store.put_other _ _ h.1]

theorem Store.putAll_mem (s : Store) (ps : List (Bytes × Bytes)) (k v : Bytes)
    (hnd : (ps.map Prod.fst).Nodup) (h : (k, v) ∈ ps) : s.putAll ps k = some v := by
  induction ps generalizing s with
  | nil => simp at h
  | cons p rest ih =>
    simp only [List.map_cons, List.nodup_cons] at hnd
    show (s.put p.1 p.2).putAll rest k = some v
    rcases List.mem_cons.mp h with e | e
    · subst e
      rw [Store.putAll_not_mem _ _ _ hnd.1, Store.put_same]
    · exact ih _ hnd.2 e

theorem group_eq_putAll (c : Deps) (block : Block) (txs : List Transaction) (j : Nat)
    (rest : List Transaction) (s : Store) :
    WriteTxLookupEntries.group c Store.writer block txs j rest s =
      s.putAll (groupPuts c block txs j rest) := by
  induction rest generalizing j s with
  | nil => rfl
  | cons tx rest ih =>
    simp only [WriteTxLookupEntries.group, groupPuts]
    rw [ih]
    rfl

theorem WriteTxLookupEntries_eq_putAll (c : Deps) (block : Block) (s : Store) :
    WriteTxLookupEntries c Store.writer s block =
      s.putAll (block.Transactions.Data.flatMap (fun txs => groupPuts c block txs 0 txs)) := by
  unfold WriteTxLookupEntries
  generalize block.Transactions.Data = data
  induction data generalizing s with
  | nil => rfl
  | cons g rest ih =>
    rw [List.foldl_cons, ih, group_eq_putAll, List.flatMap_cons, Store.putAll_append]

theorem groupPuts_keys (c : Deps) (block : Block) (txs : List Transaction) (j : Nat)
    (rest : List Transaction) :
    (groupPuts c block txs j rest).map Prod.fst = rest.map (fun tx => txLookupKey tx.Hash) := by
  induction rest generalizing j with
  | nil => rfl
  | cons tx rest ih => simp [groupPuts, ih]

theorem groupPuts_mem (c : Deps) (block : Block) (txs : List Transaction) (j i : Nat)
    (rest : List Transaction) (tx : Transaction) (h : rest.get? i = some tx) :
    (txLookupKey tx.Hash, (c.EncodeEntry (lookupEntry block txs (j + i) tx)).1) ∈
      groupPuts c block txs j rest := by
  induction rest generalizing j i with
  | nil => simp at h
  | cons t rest ih =>
    cases i with
    | zero =>
      simp only [List.get?_cons_zero, Option.some.injEq] at h
      subst h
      simp [groupPuts]
    | succ i =>
      simp only [List.get?_cons_succ] at h
      have := ih (j + 1) i h
      rw [show j + 1 + i = j + (i + 1) by omega] at this
      exact List.mem_cons_of_mem _ this

theorem lookupPuts_keys (c : Deps) (block : Block) (data : List (List Transaction)) :
    (data.flatMap (fun txs => groupPuts c block txs 0 txs)).map Prod.fst =
      (data.flatten.map Transaction.Hash).map txLookupKey := by
  induction data with
  | nil => rfl
  | cons g rest ih =>
    simp only [List.flatMap_cons, List.map_append, groupPuts_keys, ih, List.flatten_cons,
      List.map_map]
    rfl

theorem txLookupKey_injective : Function.Injective txLookupKey := by
  intro a b h
  exact Hash.ext_bytes (List.append_cancel_left h)

theorem blockBodyKey_ne_txLookupKey (n : Nat) (h k : Hash) : blockBodyKey n h ≠ txLookupKey k := by
  intro e
  have := congrArg List.head? e
  simp [blockBodyKey, txLookupKey, blockBodyPrefix, txLookupPrefix, ascii] at this

theorem length_le_sum_of_mem (g : List Transaction) (data : List (List Transaction))
    (h : g ∈ data) : g.length ≤ (data.map List.length).sum := by
  induction data with
  | nil => simp at h
  | cons x rest ih =>
    rcases List.mem_cons.mp h with e | e
    · subst e; simp
    · have := ih e
      simp only [List.map_cons, List.sum_cons]
      omega

theorem Transactions.Len_nonneg (t : Transactions) : 0 ≤ t.Len := by
  unfold Transactions.Len
  exact Int.ofNat_nonneg _

theorem toInt_neg_of_ge {x : Nat} (h63 : 2 ^ 63 ≤ x) (h64 : x < 2 ^ 64) : toInt x < 0 := by
  unfold toInt
  rw [Nat.mod_eq_of_lt h64, if_neg (by omega)]
  omega

theorem GetTx_of_group (t : Transactions) (g : List Transaction) (j : Nat) (tx : Transaction)
    (hg : g ∈ t.data) (hj : g.get? j = some tx)
    (hgroup : ∀ g2 ∈ t.data,
      g2.head?.map Transaction.TxType = g.head?.map Transaction.TxType → g2 = g) :
    t.GetTx (g.headD tx).TxType j = some tx := by
  have hhead : g.head?.map Transaction.TxType = some (g.headD tx).TxType := by
    cases g with
    | nil => simp at hj
    | cons a l => rfl
  unfold Transactions.GetTx
  cases hf : t.data.find?
    (fun g3 => g3.head?.map Transaction.TxType == some (g.headD tx).TxType) with
  | none =>
    have := List.find?_eq_none.mp hf g hg
    simp [hhead] at this
  | some g2 =>
    have hp := List.find?_some hf
    have hm := List.mem_of_find?_eq_some hf
    have e : g2 = g := hgroup g2 hm (by rw [hhead]; simpa using hp)
    simp only [e]
    exact hj

/-- The guard of `ReadTransaction` reads a lookup entry whose block hash is
the all-zero hash as absent: were the all-zero hash the hash of a block, the
transactions of that block would not be found.  The zero hash is the value the
package returns for "unknown" and is no digest of a block; the round trip
below is stated for blocks whose hash is not the zero hash. -/
theorem ReadTransaction_zero_block_hash :
    (zeroHashBlock.Transactions.Data.flatten.map Transaction.Hash).Nodup ∧
      zeroHashBlock.Transactions.Data = [[sampleTx]] ∧
      sampleDeps.DecodeBody (sampleDeps.EncodeBody zeroHashBlock.Body).1
        = .ok zeroHashBlock.Body ∧
      (sampleDeps.EncodeBody zeroHashBlock.Body).1 ≠ [] ∧
      sampleDeps.DecodeEntry
          (sampleDeps.EncodeEntry ⟨zeroHashBlock.Hash, zeroHashBlock.Height, sampleTx.TxType, 0⟩).1
        = .ok ⟨zeroHashBlock.Hash, zeroHashBlock.Height, sampleTx.TxType, 0⟩ ∧
      (sampleDeps.EncodeEntry
          ⟨zeroHashBlock.Hash, zeroHashBlock.Height, sampleTx.TxType, 0⟩).1 ≠ [] ∧
      ReadTransaction sampleDeps (Store.reader none)
          (WriteTxLookupEntries sampleDeps Store.writer
            (WriteBody sampleDeps Store.writer Store.empty zeroHashBlock.Hash
              zeroHashBlock.Height zeroHashBlock.Body) zeroHashBlock) sampleTx.Hash
        = (none, Hash.zero, 0, 0) ∧
      ReadTransaction sampleDeps (Store.reader none)
          (WriteTxLookupEntries sampleDeps Store.writer
            (WriteBody sampleDeps Store.writer Store.empty zeroHashBlock.Hash
              zeroHashBlock.Height zeroHashBlock.Body) zeroHashBlock) sampleTx.Hash
        ≠ (some sampleTx, zeroHashBlock.Hash, zeroHashBlock.Height, 0) := by
  refine ⟨by decide, rfl, rfl, by decide, rfl, by decide, by decide, by decide⟩

/-- C10. For every block whose transactions have pairwise distinct hashes (the
block's hash, a digest, is not the all-zero hash the package keeps for
"unknown"), after the block's body is written and `WriteTxLookupEntries(block)`
is applied, the codec round-tripping the body and the lookup entry, for the
transaction `tx` at position `j` (a `uint64` index) of a type-group `g` of the
block, `ReadTransaction(tx.Hash())` returns
`(tx, block.Hash(), block.Height(), j)`, `j` being the index within that
group. -/
theorem WriteTxLookupEntries_then_ReadTransaction (c : Deps) (notFound : Error) (s : Store)
    (block : Block) (g : List Transaction) (j : Nat) (tx : Transaction)
    (hdistinct : (block.Transactions.Data.flatten.map Transaction.Hash).Nodup)
    (hhash : block.Hash ≠ Hash.zero)
    (hgroup : block.Transactions.IsTypeGroup g)
    (hj : g.get? j = some tx) (hj64 : j < 2 ^ 64)
    (hbody_ne : (c.EncodeBody block.Body).1 ≠ [])
    (hbody : c.DecodeBody (c.EncodeBody block.Body).1 = .ok block.Body)
    (hentry_ne :
      (c.EncodeEntry ⟨block.Hash, block.Height, (g.headD tx).TxType, j⟩).1 ≠ [])
    (hentry :
      c.DecodeEntry (c.EncodeEntry ⟨block.Hash, block.Height, (g.headD tx).TxType, j⟩).1
        = .ok ⟨block.Hash, block.Height, (g.headD tx).TxType, j⟩) :
    ReadTransaction c (Store.reader notFound)
        (WriteTxLookupEntries c Store.writer
          (WriteBody c Store.writer s block.Hash block.Height block.Body) block) tx.Hash
      = (some tx, block.Hash, block.Height, j) := by
  have hg : g ∈ block.Transactions.Data := hgroup.1
  have hjlt : j < g.length := by
    by_contra hcon
    rw [List.get?_eq_none.mpr (by omega)] at hj
    cases hj
  have hsum : g.length ≤ (block.Transactions.data.map List.length).sum :=
    length_le_sum_of_mem g _ hg
  have hjmod : j % 2 ^ 64 = j := Nat.mod_eq_of_lt hj64
  have hent : lookupEntry block g j tx =
      ⟨block.Hash, block.Height, (g.headD tx).TxType, j⟩ := by
    unfold lookupEntry
    rw [hjmod]
  rw [WriteTxLookupEntries_eq_putAll]
  have hnd : ((block.Transactions.Data.flatMap
      (fun txs => groupPuts c block txs 0 txs)).map Prod.fst).Nodup := by
    rw [lookupPuts_keys]
    exact hdistinct.map txLookupKey_injective
  have hmem : (txLookupKey tx.Hash,
      (c.EncodeEntry ⟨block.Hash, block.Height, (g.headD tx).TxType, j⟩).1) ∈
      block.Transactions.Data.flatMap (fun txs => groupPuts c block txs 0 txs) := by
    rw [List.mem_flatMap]
    refine ⟨g, hg, ?_⟩
    have := groupPuts_mem c block g 0 j g tx hj
    rw [Nat.zero_add, hent] at this
    exact this
  have hlook := Store.putAll_mem
    (WriteBody c Store.writer s block.Hash block.Height block.Body) _ _ _ hnd hmem
  have hbk : (Store.putAll (WriteBody c Store.writer s block.Hash block.Height block.Body)
      (block.Transactions.Data.flatMap (fun txs => groupPuts c block txs 0 txs)))
      (blockBodyKey block.Height block.Hash) = some (c.EncodeBody block.Body).1 := by
    rw [Store.putAll_not_mem]
    · simp [WriteBody, WriteBodyRLP, Store.writer, Store.put]
    · rw [lookupPuts_keys]
      intro hm
      obtain ⟨h2, -, e⟩ := List.mem_map.mp hm
      exact blockBodyKey_ne_txLookupKey _ _ _ e.symm
  have hrb := ReadBody_present c notFound _ block.Hash block.Height _ block.Body hbk hbody_ne
    hbody
  have hnot : ¬ block.Body.Txs.Len ≤ toInt j := by
    by_cases h63 : j < 2 ^ 63
    · have hint : toInt j = (j : Int) := by
        unfold toInt
        rw [hjmod, if_pos h63]
      rw [hint]
      show ¬ ((block.Transactions.data.map List.length).sum : Int) ≤ (j : Int)
      omega
    · have h1 := toInt_neg_of_ge (Nat.le_of_not_lt h63) hj64
      have h2 := Transactions.Len_nonneg block.Body.Txs
      omega
  have hget : block.Body.Txs.GetTx (g.headD tx).TxType j = some tx :=
    GetTx_of_group block.Transactions g j tx hg hj hgroup.2
  have hrl : ReadTxLookupEntry c (Store.reader notFound)
      (Store.putAll (WriteBody c Store.writer s block.Hash block.Height block.Body)
        (block.Transactions.Data.flatMap (fun txs => groupPuts c block txs 0 txs))) tx.Hash
      = (block.Hash, block.Height, (g.headD tx).TxType, j) := by
    simp only [ReadTxLookupEntry, Store.get_present notFound _ _ _ hlook]
    rw [if_neg (by simpa using hentry_ne), hentry]
  simp only [ReadTransaction, hrl, if_neg hhash, hrb, if_neg hnot, hget]

theorem WriteTxLookupEntries_then_ReadTransaction_witness :
    (sampleBlock.Transactions.Data.flatten.map Transaction.Hash).Nodup ∧
      sampleBlock.Hash ≠ Hash.zero ∧
      sampleBlock.Transactions.IsTypeGroup [sampleTx] ∧
      [sampleTx].get? 0 = some sampleTx ∧
      0 < 2 ^ 64 ∧
      ReadTransaction sampleDeps (Store.reader none)
          (WriteTxLookupEntries sampleDeps Store.writer
            (WriteBody sampleDeps Store.writer Store.empty sampleBlock.Hash sampleBlock.Height
              sampleBlock.Body) sampleBlock) sampleTx.Hash
        = (some sampleTx, sampleBlock.Hash, sampleBlock.Height, 0) :=
  ⟨by decide, by decide, ⟨by decide, by decide⟩, rfl, by decide,
    WriteTxLookupEntries_then_ReadTransaction sampleDeps none Store.empty sampleBlock
      [sampleTx] 0 sampleTx (by decide) (by decide) ⟨by decide, by decide⟩ rfl (by decide)
      (by decide) rfl (by decide) rfl⟩

/-! ## Theorems: what a caller can tell apart -/

theorem ReadTxLookupEntry_absent (c : Deps) (nf : Error) (s : Store) (t : Hash)
    (h : s (txLookupKey t) = none) :
    ReadTxLookupEntry c (Store.reader nf) s t = (Hash.zero, 0, c.TxTypeUnknown, 0) := by
  simp [ReadTxLookupEntry, Store.get_absent nf s _ h]

theorem ReadTransaction_absent (c : Deps) (nf : Error) (s : Store) (t : Hash)
    (h : s (txLookupKey t) = none) :
    ReadTransaction c (Store.reader nf) s t = (none, Hash.zero, 0, 0) := by
  simp [ReadTransaction, ReadTxLookupEntry_absent c nf s t h]

theorem ReadTransaction_dangling (c : Deps) (nf : Error) (s : Store) (t : Hash)
    (data : Bytes) (entry : TxLookupEntry)
    (hl : s (txLookupKey t) = some data) (hne : data ≠ [])
    (hdec : c.DecodeEntry data = .ok entry)
    (hb : s (blockBodyKey entry.BlockIndex entry.BlockHash) = none) :
    ReadTransaction c (Store.reader nf) s t = (none, Hash.zero, 0, 0) := by
  have hrl : ReadTxLookupEntry c (Store.reader nf) s t =
      (entry.BlockHash, entry.BlockIndex, entry.TxType, entry.TxIndex) := by
    simp only [ReadTxLookupEntry, Store.get_present nf s _ _ hl]
    rw [if_neg (by simpa using hne), hdec]
  simp only [ReadTransaction, hrl, ReadBody_absent c nf s _ _ hb]
  split <;> rfl

/-- C11, the claim as stated fails: `danglingStore` holds a lookup entry for the
hash of `sampleTx` that decodes and refers to a block whose body is absent,
the empty store holds no lookup entry, and both `ReadTransaction` and the
facade `GetTransaction` (error included) return the same on the two stores. -/
theorem ReadTransaction_dangling_same_as_absent :
    danglingStore (txLookupKey sampleTx.Hash) = some [4, 1] ∧
      sampleDeps.DecodeEntry [4, 1] = .ok sampleEntry ∧
      danglingStore (blockBodyKey sampleEntry.BlockIndex sampleEntry.BlockHash) = none ∧
      Store.empty (txLookupKey sampleTx.Hash) = none ∧
      ReadTransaction sampleDeps (Store.reader none) danglingStore sampleTx.Hash =
        ReadTransaction sampleDeps (Store.reader none) Store.empty sampleTx.Hash ∧
      kvStore.GetTransaction sampleDeps (Store.database none none) danglingStore sampleTx.Hash =
        kvStore.GetTransaction sampleDeps (Store.database none none) Store.empty
          sampleTx.Hash := by
  refine ⟨by decide, rfl, by decide, rfl, by decide, by decide⟩

/-- C11, amended. For every store in which a lookup entry for the transaction
hash `t` exists and decodes but the body it references is absent,
`ReadTransaction(t)` returns the empty result (nil, zero hash, 0, 0) and the
facade `GetTransaction(t)` returns it with a nil error; these are the results
returned for every store that holds no lookup entry for `t`. -/
theorem ReadTransaction_dangling_is_empty_result (c : Deps) (notFound commit : Error)
    (s : Store) (t : Hash) (data : Bytes) (entry : TxLookupEntry)
    (hl : s (txLookupKey t) = some data) (hne : data ≠ [])
    (hdec : c.DecodeEntry data = .ok entry)
    (hb : s (blockBodyKey entry.BlockIndex entry.BlockHash) = none) :
    ReadTransaction c (Store.reader notFound) s t = (none, Hash.zero, 0, 0) ∧
      kvStore.GetTransaction c (Store.database notFound commit) s t
        = (none, Hash.zero, 0, 0, none) ∧
      (∀ s0 : Store, s0 (txLookupKey t) = none →
        ReadTransaction c (Store.reader notFound) s0 t = (none, Hash.zero, 0, 0) ∧
        kvStore.GetTransaction c (Store.database notFound commit) s0 t
          = (none, Hash.zero, 0, 0, none)) := by
  have h1 := ReadTransaction_dangling c notFound s t data entry hl hne hdec hb
  refine ⟨h1, ?_, fun s0 h0 => ?_⟩
  · show (let (tx, blockHash, blockHeight, txIndex) :=
        ReadTransaction c (Store.reader notFound) s t
      (tx, blockHash, blockHeight, txIndex, none)) = _
    rw [h1]
  · have h2 := ReadTransaction_absent c notFound s0 t h0
    refine ⟨h2, ?_⟩
    show (let (tx, blockHash, blockHeight, txIndex) :=
        ReadTransaction c (Store.reader notFound) s0 t
      (tx, blockHash, blockHeight, txIndex, none)) = _
    rw [h2]

theorem ReadTransaction_dangling_is_empty_result_witness :
    danglingStore (txLookupKey sampleTx.Hash) = some [4, 1] ∧
      ([4, 1] : Bytes) ≠ [] ∧
      sampleDeps.DecodeEntry [4, 1] = .ok sampleEntry ∧
      danglingStore (blockBodyKey sampleEntry.BlockIndex sampleEntry.BlockHash) = none ∧
      ReadTransaction sampleDeps (Store.reader none) danglingStore sampleTx.Hash
        = (none, Hash.zero, 0, 0) :=
  ⟨by decide, by decide, rfl, by decide,
    (ReadTransaction_dangling_is_empty_result sampleDeps none none danglingStore sampleTx.Hash
      [4, 1] sampleEntry (by decide) (by decide) rfl (by decide)).1⟩

/-- C12, the claim as stated fails: on an engine whose `Get` returns an error
for every key, each of the six facade reads returns a nil error. -/
theorem facade_reads_drop_Get_error :
    (∀ k, ((Store.faultyDatabase (fun _ => some "io error") none none).reader.Get
        sampleCanonicalStore k).2 = some "io error") ∧
      (kvStore.GetCanonicalHash (Store.faultyDatabase (fun _ => some "io error") none none)
        sampleCanonicalStore 5).2 = none ∧
      (kvStore.LatestHeaderHash (Store.faultyDatabase (fun _ => some "io error") none none)
        sampleCanonicalStore).2 = none ∧
      (kvStore.LatestBlockHash (Store.faultyDatabase (fun _ => some "io error") none none)
        sampleCanonicalStore).2 = none ∧
      (kvStore.GetBody sampleDeps (Store.faultyDatabase (fun _ => some "io error") none none)
        sampleCanonicalStore (sampleHash 1) 7).2 = none ∧
      (kvStore.GetReceipts sampleDeps
        (Store.faultyDatabase (fun _ => some "io error") none none)
        sampleCanonicalStore (sampleHash 1) 7).2 = none ∧
      (kvStore.GetHeaderHeight (Store.faultyDatabase (fun _ => some "io error") none none)
        sampleCanonicalStore (sampleHash 1)).2 = none := by
  refine ⟨fun k => rfl, rfl, rfl, rfl, rfl, rfl, rfl⟩

/-- C12, amended. The facade reads `GetCanonicalHash`, `LatestHeaderHash`,
`LatestBlockHash`, `GetBody`, `GetReceipts` and `GetHeaderHeight` drop the
error of the store's `Get`: on every engine and state they return a nil error,
and when `Get` returns no bytes for the key being read (with or without an
error) they return the absent value: the zero hash, a nil body, nil receipts, a
nil height. -/
theorem facade_reads_return_nil_error {σ β : Type} (c : Deps) (db : Database σ β) (s : σ)
    (hash : Hash) (height : Nat) :
    ((kvStore.GetCanonicalHash db s height).2 = none ∧
        (kvStore.LatestHeaderHash db s).2 = none ∧
        (kvStore.LatestBlockHash db s).2 = none ∧
        (kvStore.GetBody c db s hash height).2 = none ∧
        (kvStore.GetReceipts c db s hash height).2 = none ∧
        (kvStore.GetHeaderHeight db s hash).2 = none) ∧
      ((db.reader.Get s (headerHashKey height)).1 = [] →
        (kvStore.GetCanonicalHash db s height).1 = Hash.zero) ∧
      ((db.reader.Get s headHeaderKey).1 = [] →
        (kvStore.LatestHeaderHash db s).1 = Hash.zero) ∧
      ((db.reader.Get s headBlockKey).1 = [] →
        (kvStore.LatestBlockHash db s).1 = Hash.zero) ∧
      ((db.reader.Get s (blockBodyKey height hash)).1 = [] →
        (kvStore.GetBody c db s hash height).1 = none) ∧
      ((db.reader.Get s (blockReceiptsKey height hash)).1 = [] →
        (kvStore.GetReceipts c db s hash height).1 = none) ∧
      ((db.reader.Get s (headerNumberKey hash)).1 = [] →
        (kvStore.GetHeaderHeight db s hash).1 = none) := by
  refine ⟨⟨rfl, rfl, rfl, rfl, rfl, rfl⟩, fun h => ?_, fun h => ?_, fun h => ?_, fun h => ?_,
    fun h => ?_, fun h => ?_⟩
  · simp [kvStore.GetCanonicalHash, ReadCanonicalHash, h]
  · simp [kvStore.LatestHeaderHash, ReadHeadHeaderHash, h]
  · simp [kvStore.LatestBlockHash, ReadHeadBlockHash, h]
  · simp [kvStore.GetBody, ReadBody, ReadBodyRLP, h]
  · simp [kvStore.GetReceipts, ReadReceipts, h]
  · simp [kvStore.GetHeaderHeight, ReadHeaderNumber, h]

/-- C13, the claim as stated fails: the header key of (7, `sampleHash 1`) in
`corruptHeaderStore` holds non-empty bytes that the codec fails to decode, the
empty store never had that key written, and both `ReadHeader` and the facade
`GetHeader` return the same on the two stores. -/
theorem ReadHeader_corrupt_same_as_absent :
    corruptHeaderStore (headerKey 7 (sampleHash 1)) = some [9, 9] ∧
      sampleDeps.DecodeHeader [9, 9] = .error "not a header" ∧
      Store.empty (headerKey 7 (sampleHash 1)) = none ∧
      ReadHeader sampleDeps (Store.reader none) corruptHeaderStore (sampleHash 1) 7 =
        ReadHeader sampleDeps (Store.reader none) Store.empty (sampleHash 1) 7 ∧
      kvStore.GetHeader sampleDeps (Store.database none none) corruptHeaderStore
          (sampleHash 1) 7 =
        kvStore.GetHeader sampleDeps (Store.database none none) Store.empty
          (sampleHash 1) 7 := by
  refine ⟨by decide, rfl, rfl, by decide, by decide⟩

theorem ReadHeader_corrupt (c : Deps) (nf : Error) (s : Store) (hash : Hash) (number : Nat)
    (data : Bytes) (msg : String) (h : s (headerKey number hash) = some data)
    (hdec : c.DecodeHeader data = .error msg) :
    ReadHeader c (Store.reader nf) s hash number = none := by
  simp only [ReadHeader, ReadHeaderRLP, Store.get_present nf s _ _ h, hdec]
  split <;> rfl

/-- C13, amended. For every store in which the header key of (height, hash)
holds non-empty bytes that the codec fails to decode, `ReadHeader(hash, height)`
returns nil and the facade `GetHeader(hash, height)` returns nil with the error
`header is not exist`; these are the results returned when that key was never
written. -/
theorem ReadHeader_corrupt_is_absent_result (c : Deps) (notFound commit : Error) (s : Store)
    (hash : Hash) (height : Nat) (data : Bytes) (msg : String)
    (h : s (headerKey height hash) = some data) (_hne : data ≠ [])
    (hdec : c.DecodeHeader data = .error msg) :
    ReadHeader c (Store.reader notFound) s hash height = none ∧
      kvStore.GetHeader c (Store.database notFound commit) s hash height
        = (none, some "header is not exist") ∧
      (∀ s0 : Store, s0 (headerKey height hash) = none →
        ReadHeader c (Store.reader notFound) s0 hash height = none ∧
        kvStore.GetHeader c (Store.database notFound commit) s0 hash height
          = (none, some "header is not exist")) := by
  have h1 := ReadHeader_corrupt c notFound s hash height data msg h hdec
  refine ⟨h1, ?_, fun s0 h0 => ?_⟩
  · show (match ReadHeader c (Store.reader notFound) s hash height with
      | none => (none, some "header is not exist")
      | some header => (some header, none)) = _
    rw [h1]
  · have h2 := ReadHeader_absent c notFound s0 hash height h0
    refine ⟨h2, ?_⟩
    show (match ReadHeader c (Store.reader notFound) s0 hash height with
      | none => (none, some "header is not exist")
      | some header => (some header, none)) = _
    rw [h2]

theorem ReadHeader_corrupt_is_absent_result_witness :
    corruptHeaderStore (headerKey 7 (sampleHash 1)) = some [9, 9] ∧
      ([9, 9] : Bytes) ≠ [] ∧
      sampleDeps.DecodeHeader [9, 9] = .error "not a header" ∧
      kvStore.GetHeader sampleDeps (Store.database none none) corruptHeaderStore
        (sampleHash 1) 7 = (none, some "header is not exist") :=
  ⟨by decide, by decide, rfl,
    (ReadHeader_corrupt_is_absent_result sampleDeps none none corruptHeaderStore (sampleHash 1)
      7 [9, 9] "not a header" (by decide) (by decide) rfl).2.1⟩

/-! ## Theorems: reading the chain configuration -/

/-- C14. On every reader and state: `ReadChainConfigByHash` returns (nil, nil)
when `Get` yields no bytes and no error for the hash-keyed record, and
(nil, err) with the decoder's error when the record holds non-empty bytes that
fail to decode; `ReadChainConfigByHeight` and `ReadChainConfigLatest` return
(nil, nil) when `Get` yields no bytes and no error for their pointer, and
otherwise exactly what `ReadChainConfigByHash` returns for the hash stored in
the pointer, so in particular (nil, nil) when that record is absent and
(nil, err) when it fails to decode. -/
theorem ReadChainConfig_absent_and_corrupt {σ : Type} (c : Deps) (db : ChainDbReader σ)
    (s : σ) (bHash : Hash) (height : Nat) :
    (db.Get s (chainConfigKey bHash) = ([], none) →
        ReadChainConfigByHash c db s bHash = (none, none)) ∧
      (∀ (data : Bytes) (e : Error) (msg : String),
        db.Get s (chainConfigKey bHash) = (data, e) → data ≠ [] →
        c.DecodeConfig data = .error msg →
        ReadChainConfigByHash c db s bHash = (none, some msg)) ∧
      (db.Get s (chainConfigHeightKey height) = ([], none) →
        ReadChainConfigByHeight c db s height = (none, none)) ∧
      (db.Get s chainConfigLatestPrefix = ([], none) →
        ReadChainConfigLatest c db s = (none, none)) ∧
      (∀ (ptr : Bytes) (e : Error),
        db.Get s (chainConfigHeightKey height) = (ptr, e) → ptr ≠ [] →
        ReadChainConfigByHeight c db s height =
          ReadChainConfigByHash c db s (BytesToHash ptr)) ∧
      (∀ (ptr : Bytes) (e : Error),
        db.Get s chainConfigLatestPrefix = (ptr, e) → ptr ≠ [] →
        ReadChainConfigLatest c db s = ReadChainConfigByHash c db s (BytesToHash ptr)) ∧
      (∀ (ptr : Bytes) (e : Error),
        db.Get s (chainConfigHeightKey height) = (ptr, e) → ptr ≠ [] →
        db.Get s (chainConfigKey (BytesToHash ptr)) = ([], none) →
        ReadChainConfigByHeight c db s height = (none, none)) ∧
      (∀ (ptr : Bytes) (e : Error),
        db.Get s chainConfigLatestPrefix = (ptr, e) → ptr ≠ [] →
        db.Get s (chainConfigKey (BytesToHash ptr)) = ([], none) →
        ReadChainConfigLatest c db s = (none, none)) ∧
      (∀ (ptr data : Bytes) (e e2 : Error) (msg : String),
        db.Get s (chainConfigHeightKey height) = (ptr, e) → ptr ≠ [] →
        db.Get s (chainConfigKey (BytesToHash ptr)) = (data, e2) → data ≠ [] →
        c.DecodeConfig data = .error msg →
        ReadChainConfigByHeight c db s height = (none, some msg)) ∧
      (∀ (ptr data : Bytes) (e e2 : Error) (msg : String),
        db.Get s chainConfigLatestPrefix = (ptr, e) → ptr ≠ [] →
        db.Get s (chainConfigKey (BytesToHash ptr)) = (data, e2) → data ≠ [] →
        c.DecodeConfig data = .error msg →
        ReadChainConfigLatest c db s = (none, some msg)) := by
  have habs : ∀ h : Hash, db.Get s (chainConfigKey h) = ([], none) →
      ReadChainConfigByHash c db s h = (none, none) := by
    intro h hg
    simp [ReadChainConfigByHash, hg]
  have hcor : ∀ (h : Hash) (data : Bytes) (e : Error) (msg : String),
      db.Get s (chainConfigKey h) = (data, e) → data ≠ [] →
      c.DecodeConfig data = .error msg →
      ReadChainConfigByHash c db s h = (none, some msg) := by
    intro h data e msg hg hne hdec
    simp only [ReadChainConfigByHash, hg]
    rw [if_neg (by simpa using hne), hdec]
  have hheight : ∀ (ptr : Bytes) (e : Error),
      db.Get s (chainConfigHeightKey height) = (ptr, e) → ptr ≠ [] →
      ReadChainConfigByHeight c db s height =
        ReadChainConfigByHash c db s (BytesToHash ptr) := by
    intro ptr e hg hne
    simp only [ReadChainConfigByHeight, hg]
    rw [if_neg (by simpa using hne)]
  have hlatest : ∀ (ptr : Bytes) (e : Error),
      db.Get s chainConfigLatestPrefix = (ptr, e) → ptr ≠ [] →
      ReadChainConfigLatest c db s = ReadChainConfigByHash c db s (BytesToHash ptr) := by
    intro ptr e hg hne
    simp only [ReadChainConfigLatest, hg]
    rw [if_neg (by simpa using hne)]
  refine ⟨habs bHash, hcor bHash, fun hg => ?_, fun hg => ?_, hheight, hlatest, ?_, ?_, ?_, ?_⟩
  · simp [ReadChainConfigByHeight, hg]
  · simp [ReadChainConfigLatest, hg]
  · intro ptr e hg hne hrec
    rw [hheight ptr e hg hne, habs _ hrec]
  · intro ptr e hg hne hrec
    rw [hlatest ptr e hg hne, habs _ hrec]
  · intro ptr data e e2 msg hg hne hrec hne2 hdec
    rw [hheight ptr e hg hne, hcor _ data e2 msg hrec hne2 hdec]
  · intro ptr data e e2 msg hg hne hrec hne2 hdec
    rw [hlatest ptr e hg hne, hcor _ data e2 msg hrec hne2 hdec]

/-! ## Theorems: key order -/

theorem bytesLess_append_left (p a b : Bytes) : bytesLess (p ++ a) (p ++ b) = bytesLess a b := by
  induction p with
  | nil => rfl
  | cons x xs ih => simp [bytesLess, ih]

theorem bytesLess_append_of_length_eq (a b x y : Bytes) (hl : a.length = b.length)
    (h : bytesLess a b = true) : bytesLess (a ++ x) (b ++ y) = true := by
  induction a generalizing b with
  | nil =>
    cases b with
    | nil => simp [bytesLess] at h
    | cons c cs => simp at hl
  | cons c cs ih =>
    cases b with
    | nil => simp at hl
    | cons d ds =>
      simp only [List.length_cons, Nat.add_right_cancel_iff] at hl
      simp only [bytesLess, Bool.or_eq_true, Bool.and_eq_true, decide_eq_true_eq] at h
      simp only [List.cons_append, bytesLess, Bool.or_eq_true, Bool.and_eq_true,
        decide_eq_true_eq]
      rcases h with h | ⟨h1, h2⟩
      · exact Or.inl h
      · exact Or.inr ⟨h1, ih ds hl h2⟩

theorem bytesLess_digits (a0 a1 a2 a3 a4 a5 a6 a7 b0 b1 b2 b3 b4 b5 b6 b7 : Nat)
    (ha1 : a1 < 256) (ha2 : a2 < 256) (ha3 : a3 < 256) (ha4 : a4 < 256)
    (ha5 : a5 < 256) (ha6 : a6 < 256) (ha7 : a7 < 256)
    (hb1 : b1 < 256) (hb2 : b2 < 256) (hb3 : b3 < 256) (hb4 : b4 < 256)
    (hb5 : b5 < 256) (hb6 : b6 < 256) (hb7 : b7 < 256)
    (h : a0 * 2 ^ 56 + a1 * 2 ^ 48 + a2 * 2 ^ 40 + a3 * 2 ^ 32 + a4 * 2 ^ 24 + a5 * 2 ^ 16 +
        a6 * 2 ^ 8 + a7 <
      b0 * 2 ^ 56 + b1 * 2 ^ 48 + b2 * 2 ^ 40 + b3 * 2 ^ 32 + b4 * 2 ^ 24 + b5 * 2 ^ 16 +
        b6 * 2 ^ 8 + b7) :
    bytesLess [a0, a1, a2, a3, a4, a5, a6, a7] [b0, b1, b2, b3, b4, b5, b6, b7] = true := by
  simp only [bytesLess, Bool.or_eq_true, Bool.and_eq_true, decide_eq_true_eq, Bool.or_false,
    Bool.and_false]
  by_cases e0 : a0 = b0
  · right; refine ⟨e0, ?_⟩
    by_cases e1 : a1 = b1
    · right; refine ⟨e1, ?_⟩
      by_cases e2 : a2 = b2
      · right; refine ⟨e2, ?_⟩
        by_cases e3 : a3 = b3
        · right; refine ⟨e3, ?_⟩
          by_cases e4 : a4 = b4
          · right; refine ⟨e4, ?_⟩
            by_cases e5 : a5 = b5
            · right; refine ⟨e5, ?_⟩
              by_cases e6 : a6 = b6
              · right; refine ⟨e6, ?_⟩
                omega
              · left; omega
            · left; omega
          · left; omega
        · left; omega
      · left; omega
    · left; omega
  · left; omega

theorem encodeBlockNumber_digits (n : Nat) (h : n < 2 ^ 64) :
    n / 2 ^ 56 % 256 * 2 ^ 56 + n / 2 ^ 48 % 256 * 2 ^ 48 + n / 2 ^ 40 % 256 * 2 ^ 40 +
      n / 2 ^ 32 % 256 * 2 ^ 32 + n / 2 ^ 24 % 256 * 2 ^ 24 + n / 2 ^ 16 % 256 * 2 ^ 16 +
      n / 2 ^ 8 % 256 * 2 ^ 8 + n % 256 = n := by
  omega

theorem bytesLess_encodeBlockNumber {n1 n2 : Nat} (hlt : n1 < n2) (h2 : n2 < 2 ^ 64) :
    bytesLess (encodeBlockNumber n1) (encodeBlockNumber n2) = true := by
  apply bytesLess_digits
  all_goals first
    | exact Nat.mod_lt _ (by decide)
    | (rw [encodeBlockNumber_digits n1 (by omega), encodeBlockNumber_digits n2 h2]; exact hlt)

theorem bytesLess_prefix_height (p x y : Bytes) {n1 n2 : Nat} (hlt : n1 < n2)
    (h2 : n2 < 2 ^ 64) :
    bytesLess ((p ++ encodeBlockNumber n1) ++ x) ((p ++ encodeBlockNumber n2) ++ y) = true := by
  rw [List.append_assoc, List.append_assoc, bytesLess_append_left]
  exact bytesLess_append_of_length_eq _ _ _ _ (by simp [encodeBlockNumber_length])
    (bytesLess_encodeBlockNumber hlt h2)

theorem bytesLess_same_height (p x y : Bytes) (n : Nat) :
    bytesLess ((p ++ encodeBlockNumber n) ++ x) ((p ++ encodeBlockNumber n) ++ y)
      = bytesLess x y := by
  rw [bytesLess_append_left]

/-- C15. For `uint64` heights `n1 < n2` and any hashes, the header, body and
receipts keys and the canonical-hash key of `n1` are bytewise-lexicographically
smaller than those of `n2`; for equal heights the header, body and receipts
keys are ordered as the hashes are. -/
theorem keys_sorted_by_height (n1 n2 : Nat) (h1 h2 : Hash) (hlt : n1 < n2)
    (hn2 : n2 < 2 ^ 64) :
    bytesLess (headerKey n1 h1) (headerKey n2 h2) = true ∧
      bytesLess (blockBodyKey n1 h1) (blockBodyKey n2 h2) = true ∧
      bytesLess (blockReceiptsKey n1 h1) (blockReceiptsKey n2 h2) = true ∧
      bytesLess (headerHashKey n1) (headerHashKey n2) = true ∧
      (∀ n : Nat,
        bytesLess (headerKey n h1) (headerKey n h2) = bytesLess h1.Bytes h2.Bytes ∧
        bytesLess (blockBodyKey n h1) (blockBodyKey n h2) = bytesLess h1.Bytes h2.Bytes ∧
        bytesLess (blockReceiptsKey n h1) (blockReceiptsKey n h2)
          = bytesLess h1.Bytes h2.Bytes) :=
  ⟨bytesLess_prefix_height _ _ _ hlt hn2, bytesLess_prefix_height _ _ _ hlt hn2,
    bytesLess_prefix_height _ _ _ hlt hn2, bytesLess_prefix_height _ _ _ hlt hn2,
    fun n => ⟨bytesLess_same_height _ _ _ n, bytesLess_same_height _ _ _ n,
      bytesLess_same_height _ _ _ n⟩⟩

theorem keys_sorted_by_height_witness :
    255 < 256 ∧ 256 < 2 ^ 64 ∧
      bytesLess (headerKey 255 (sampleHash 9)) (headerKey 256 (sampleHash 1)) = true ∧
      bytesLess (headerHashKey 255) (headerHashKey 256) = true :=
  ⟨by decide, by decide,
    (keys_sorted_by_height 255 256 (sampleHash 9) (sampleHash 1) (by decide) (by decide)).1,
    (keys_sorted_by_height 255 256 (sampleHash 9) (sampleHash 1) (by decide)
      (by decide)).2.2.2.1⟩

/-! ## Theorems: hash to height, forks -/

theorem bigEndianUint64_encodeBlockNumber (n : Nat) :
    bigEndianUint64 (encodeBlockNumber n) = n % 2 ^ 64 := by
  simp only [bigEndianUint64, encodeBlockNumber, List.getD_cons_zero, List.getD_cons_succ]
  omega

theorem encodeBlockNumber_mod (n : Nat) :
    encodeBlockNumber (n % 2 ^ 64) = encodeBlockNumber n := by
  simp only [encodeBlockNumber, List.cons.injEq, and_true]
  omega

theorem WriteHeader_headerKey (c : Deps) (s : Store) (header : Header) :
    (WriteHeader c Store.writer s header) (headerKey header.Height header.Hash)
      = some (c.EncodeHeader header).1 := by
  simp only [WriteHeader, Store.writer_put, Store.put_same]

theorem WriteHeader_headerNumberKey (c : Deps) (s : Store) (header : Header) :
    (WriteHeader c Store.writer s header) (headerNumberKey header.Hash)
      = some (encodeBlockNumber header.Height) := by
  simp only [WriteHeader, Store.writer_put]
  rw [Store.put_other _ _ (headerKey_ne_headerNumberKey _ _ _).symm, Store.put_same]

theorem WriteHeader_other (c : Deps) (s : Store) (header : Header) (k : Bytes)
    (h1 : k ≠ headerNumberKey header.Hash) (h2 : k ≠ headerKey header.Height header.Hash) :
    (WriteHeader c Store.writer s header) k = s k := by
  simp only [WriteHeader, Store.writer_put]
  rw [Store.put_other _ _ h2, Store.put_other _ _ h1]

theorem headerNumberKey_ne_of_hash_ne {h k : Hash} (hne : h ≠ k) :
    headerNumberKey h ≠ headerNumberKey k := by
  intro e
  exact hne (Hash.ext_bytes (List.append_cancel_left e))

theorem headerKey_ne_of_hash_ne (n m : Nat) {h k : Hash} (hne : h ≠ k) :
    headerKey n h ≠ headerKey m k := by
  intro e
  have e2 := List.append_inj e (by simp [headerPrefix, ascii, encodeBlockNumber_length])
  exact hne (Hash.ext_bytes e2.2)

theorem ReadHeaderNumber_present (nf : Error) (s : Store) (hash : Hash) (n : Nat)
    (h : s (headerNumberKey hash) = some (encodeBlockNumber n)) :
    ReadHeaderNumber (Store.reader nf) s hash = some (n % 2 ^ 64) := by
  simp only [ReadHeaderNumber, Store.get_present nf s _ _ h, encodeBlockNumber_length,
    bigEndianUint64_encodeBlockNumber]
  simp

theorem ReadHeaderNumber_no_height (nf : Error) (s : Store) (hash : Hash)
    (h : ∀ v, s (headerNumberKey hash) = some v → v.length ≠ 8) :
    ReadHeaderNumber (Store.reader nf) s hash = none := by
  cases hs : s (headerNumberKey hash) with
  | none => simp [ReadHeaderNumber, Store.get_absent nf s _ hs]
  | some v => simp [ReadHeaderNumber, Store.get_present nf s _ _ hs, h v hs]

theorem GetHeaderByHash_of_number (c : Deps) (nf cm : Error) (s : Store) (hash : Hash)
    (n : Nat) (h : ReadHeaderNumber (Store.reader nf) s hash = some n) :
    kvStore.GetHeaderByHash c (Store.database nf cm) s hash =
      kvStore.GetHeader c (Store.database nf cm) s hash n := by
  show (match ReadHeaderNumber (Store.reader nf) s hash with
    | none => (none, some "header is not exist")
    | some height => kvStore.GetHeader c (Store.database nf cm) s hash height) = _
  rw [h]

theorem GetHeader_of_ReadHeader (c : Deps) (nf cm : Error) (s : Store) (hash : Hash)
    (n : Nat) (header : Header) (h : ReadHeader c (Store.reader nf) s hash n = some header) :
    kvStore.GetHeader c (Store.database nf cm) s hash n = (some header, none) := by
  show (match ReadHeader c (Store.reader nf) s hash n with
    | none => (none, some "header is not exist")
    | some header => (some header, none)) = _
  rw [h]

/-- C16. For every header whose height is a `uint64`, after `WriteHeader`,
`ReadHeaderNumber(header.Hash())` returns the header's height (the 8-byte
big-endian decoding inverts `encodeBlockNumber`) and, the codec round-tripping
the header, the facade `GetHeaderByHash(header.Hash())` returns the written
header with a nil error; for a hash with no 8-byte value stored,
`ReadHeaderNumber` returns nil and `GetHeaderByHash` returns nil and an error. -/
theorem WriteHeader_then_GetHeaderByHash (c : Deps) (notFound commit : Error) (s : Store)
    (header : Header) (hh : header.Height < 2 ^ 64)
    (hne : (c.EncodeHeader header).1 ≠ [])
    (hdec : c.DecodeHeader (c.EncodeHeader header).1 = .ok header) :
    bigEndianUint64 (encodeBlockNumber header.Height) = header.Height ∧
      ReadHeaderNumber (Store.reader notFound) (WriteHeader c Store.writer s header)
        header.Hash = some header.Height ∧
      kvStore.GetHeaderByHash c (Store.database notFound commit)
        (WriteHeader c Store.writer s header) header.Hash = (some header, none) ∧
      (∀ (s0 : Store) (hash : Hash),
        (∀ v, s0 (headerNumberKey hash) = some v → v.length ≠ 8) →
        ReadHeaderNumber (Store.reader notFound) s0 hash = none ∧
        (kvStore.GetHeaderByHash c (Store.database notFound commit) s0 hash).1 = none ∧
        (kvStore.GetHeaderByHash c (Store.database notFound commit) s0 hash).2 ≠ none) := by
  have hmod : header.Height % 2 ^ 64 = header.Height := Nat.mod_eq_of_lt hh
  have hnum : ReadHeaderNumber (Store.reader notFound) (WriteHeader c Store.writer s header)
      header.Hash = some header.Height := by
    rw [ReadHeaderNumber_present notFound _ _ _ (WriteHeader_headerNumberKey c s header), hmod]
  have hread := ReadHeader_present c notFound _ header.Hash header.Height _ header
    (WriteHeader_headerKey c s header) hne hdec
  refine ⟨by rw [bigEndianUint64_encodeBlockNumber, hmod], hnum, ?_, fun s0 hash h0 => ?_⟩
  · rw [GetHeaderByHash_of_number c notFound commit _ _ _ hnum,
      GetHeader_of_ReadHeader c notFound commit _ _ _ _ hread]
  · have hn := ReadHeaderNumber_no_height notFound s0 hash h0
    have hg : kvStore.GetHeaderByHash c (Store.database notFound commit) s0 hash =
        (none, some "header is not exist") := by
      show (match ReadHeaderNumber (Store.reader notFound) s0 hash with
        | none => (none, some "header is not exist")
        | some height => kvStore.GetHeader c (Store.database notFound commit) s0 hash height)
        = _
      rw [hn]
    exact ⟨hn, by rw [hg], by rw [hg]; simp⟩

theorem WriteHeader_then_GetHeaderByHash_witness :
    sampleHeader.Height < 2 ^ 64 ∧
      (sampleDeps.EncodeHeader sampleHeader).1 ≠ [] ∧
      sampleDeps.DecodeHeader (sampleDeps.EncodeHeader sampleHeader).1 = .ok sampleHeader ∧
      kvStore.GetHeaderByHash sampleDeps (Store.database none none)
        (WriteHeader sampleDeps Store.writer Store.empty sampleHeader) sampleHeader.Hash
        = (some sampleHeader, none) :=
  ⟨by decide, by decide, rfl,
    (WriteHeader_then_GetHeaderByHash sampleDeps none none Store.empty sampleHeader
      (by decide) (by decide) rfl).2.2.1⟩

theorem WriteHeader_frame (c : Deps) (s : Store) (a b : Header) (hab : a.Hash ≠ b.Hash) :
    (WriteHeader c Store.writer s b) (headerNumberKey a.Hash) = s (headerNumberKey a.Hash) ∧
      (WriteHeader c Store.writer s b) (headerKey a.Height a.Hash)
        = s (headerKey a.Height a.Hash) :=
  ⟨WriteHeader_other c s b _ (headerNumberKey_ne_of_hash_ne hab)
      (headerKey_ne_headerNumberKey _ _ _).symm,
    WriteHeader_other c s b _ (headerKey_ne_headerNumberKey _ _ _)
      (headerKey_ne_of_hash_ne _ _ hab)⟩

theorem ReadHeader_after_other_write (c : Deps) (nf : Error) (s : Store) (a b : Header)
    (hab : a.Hash ≠ b.Hash) (hne : (c.EncodeHeader a).1 ≠ [])
    (hdec : c.DecodeHeader (c.EncodeHeader a).1 = .ok a) :
    ReadHeader c (Store.reader nf)
        (WriteHeader c Store.writer (WriteHeader c Store.writer s a) b) a.Hash a.Height
        = some a ∧
      ReadHeader c (Store.reader nf)
        (WriteHeader c Store.writer (WriteHeader c Store.writer s b) a) a.Hash a.Height
        = some a := by
  constructor
  · apply ReadHeader_present c nf _ _ _ _ a _ hne hdec
    rw [(WriteHeader_frame c _ a b hab).2, WriteHeader_headerKey]
  · exact ReadHeader_present c nf _ _ _ _ a (WriteHeader_headerKey c _ a) hne hdec

/-- C17. For any two headers `a` and `b` with different hashes, at the same or
at different heights, `WriteHeader(b)` changes neither of the two keys written
by `WriteHeader(a)`; so, the codec round-tripping both headers, after both
writes in either order `ReadHeader(a.Hash(), a.Height)` returns `a` and
`ReadHeader(b.Hash(), b.Height)` returns `b`. -/
theorem forked_headers_coexist (c : Deps) (notFound : Error) (s : Store) (a b : Header)
    (hab : a.Hash ≠ b.Hash)
    (hnea : (c.EncodeHeader a).1 ≠ [])
    (hdeca : c.DecodeHeader (c.EncodeHeader a).1 = .ok a)
    (hneb : (c.EncodeHeader b).1 ≠ [])
    (hdecb : c.DecodeHeader (c.EncodeHeader b).1 = .ok b) :
    (∀ s1 : Store,
        (WriteHeader c Store.writer s1 b) (headerNumberKey a.Hash)
          = s1 (headerNumberKey a.Hash) ∧
        (WriteHeader c Store.writer s1 b) (headerKey a.Height a.Hash)
          = s1 (headerKey a.Height a.Hash)) ∧
      ReadHeader c (Store.reader notFound)
        (WriteHeader c Store.writer (WriteHeader c Store.writer s a) b) a.Hash a.Height
        = some a ∧
      ReadHeader c (Store.reader notFound)
        (WriteHeader c Store.writer (WriteHeader c Store.writer s a) b) b.Hash b.Height
        = some b ∧
      ReadHeader c (Store.reader notFound)
        (WriteHeader c Store.writer (WriteHeader c Store.writer s b) a) a.Hash a.Height
        = some a ∧
      ReadHeader c (Store.reader notFound)
        (WriteHeader c Store.writer (WriteHeader c Store.writer s b) a) b.Hash b.Height
        = some b := by
  have ha := ReadHeader_after_other_write c notFound s a b hab hnea hdeca
  have hb := ReadHeader_after_other_write c notFound s b a (Ne.symm hab) hneb hdecb
  exact ⟨fun s1 => WriteHeader_frame c s1 a b hab, ha.1, hb.2, ha.2, hb.1⟩

theorem forked_headers_coexist_witness :
    sampleHeader.Hash ≠ forkHeader.Hash ∧ sampleHeader.Height = forkHeader.Height ∧
      ReadHeader sampleDeps (Store.reader none)
        (WriteHeader sampleDeps Store.writer
          (WriteHeader sampleDeps Store.writer Store.empty sampleHeader) forkHeader)
        sampleHeader.Hash sampleHeader.Height = some sampleHeader ∧
      ReadHeader sampleDeps (Store.reader none)
        (WriteHeader sampleDeps Store.writer
          (WriteHeader sampleDeps Store.writer Store.empty sampleHeader) forkHeader)
        forkHeader.Hash forkHeader.Height = some forkHeader :=
  ⟨by decide, rfl,
    (forked_headers_coexist sampleDeps none Store.empty sampleHeader forkHeader (by decide)
      (by decide) rfl (by decide) rfl).2.1,
    (forked_headers_coexist sampleDeps none Store.empty sampleHeader forkHeader (by decide)
      (by decide) rfl (by decide) rfl).2.2.1⟩

/-! ## Theorems: prefixes -/

/-- C18, the claim as stated fails: `cc-` and `cc-latest` are two different
entries of the list and the first is a byte-prefix of the second. -/
theorem chainConfigPrefix_is_prefix_of_latest :
    chainConfigPrefix ∈ schemaPrefixes ∧ chainConfigLatestPrefix ∈ schemaPrefixes ∧
      chainConfigPrefix ≠ chainConfigLatestPrefix ∧
      isBytePrefixOf chainConfigPrefix chainConfigLatestPrefix = true := by
  decide

/-- C18, amended. Among the fixed key prefixes and constant keys of the schema
(`LastHeader`, `LastBlock`, `h`, `H`, `b`, `r`, `l`, `cc-`, `cc-latest`) the
only one that is a byte-prefix of another is `cc-`, a byte-prefix of
`cc-latest`. -/
theorem schema_prefixes_only_cc_overlaps :
    schemaPrefixes = [[76, 97, 115, 116, 72, 101, 97, 100, 101, 114],
        [76, 97, 115, 116, 66, 108, 111, 99, 107], [104], [72], [98], [114], [108],
        [99, 99, 45], [99, 99, 45, 108, 97, 116, 101, 115, 116]] ∧
      isBytePrefixOf chainConfigPrefix chainConfigLatestPrefix = true ∧
      (∀ p ∈ schemaPrefixes, ∀ q ∈ schemaPrefixes, p ≠ q → isBytePrefixOf p q = true →
        p = chainConfigPrefix ∧ q = chainConfigLatestPrefix) := by
  decide

/-! ## Theorems: the order of writes -/

/-- C19. For every block, the `Put` calls issued by `WriteBlock(block)` are
exactly three, in this order: the encoded body under `blockBodyKey(height,
hash)`, the encoded height under `headerNumberKey(hash)`, the encoded header
under `headerKey(height, hash)`; the last two are exactly the `Put` calls of
`WriteHeader(block.Header())`, and applying the three to a store gives the
store `WriteBlock` leaves. -/
theorem WriteBlock_put_sequence (c : Deps) (s : Store) (block : Block) :
    WriteBlock c traceWriter [] block =
        [Op.put (blockBodyKey block.Height block.Hash) (c.EncodeBody block.Body).1,
         Op.put (headerNumberKey block.Hash) (encodeBlockNumber block.Height),
         Op.put (headerKey block.Height block.Hash) (c.EncodeHeader block.Header).1] ∧
      WriteHeader c traceWriter [] block.Header =
        [Op.put (headerNumberKey block.Hash) (encodeBlockNumber block.Height),
         Op.put (headerKey block.Height block.Hash) (c.EncodeHeader block.Header).1] ∧
      WriteBlock c traceWriter [] block =
        Op.put (blockBodyKey block.Height block.Hash) (c.EncodeBody block.Body).1 ::
          WriteHeader c traceWriter [] block.Header ∧
      WriteBlock c Store.writer s block = s.apply (WriteBlock c traceWriter [] block) :=
  ⟨rfl, rfl, rfl, rfl⟩

/-! ## Theorems: header number and header -/

theorem Store.delete_same (s : Store) (k : Bytes) : (s.delete k) k = none := by
  simp [Store.delete]

theorem Store.delete_other (s : Store) {k k2 : Bytes} (h : k2 ≠ k) : (s.delete k) k2 = s k2 := by
  simp [Store.delete, h]

theorem ReadHeaderNumber_congr (nf : Error) (s1 s2 : Store) (hash : Hash)
    (h : s1 (headerNumberKey hash) = s2 (headerNumberKey hash)) :
    ReadHeaderNumber (Store.reader nf) s1 hash = ReadHeaderNumber (Store.reader nf) s2 hash := by
  simp [ReadHeaderNumber, Store.reader, h]

theorem HasHeader_eq_isSome (nf : Error) (s : Store) (hash : Hash) (n : Nat) :
    HasHeader (Store.reader nf) s hash n = (s (headerKey n hash)).isSome := by
  cases h : s (headerKey n hash) <;> simp [HasHeader, Store.reader, h]

theorem headerKey_mod (n : Nat) (h : Hash) : headerKey (n % 2 ^ 64) h = headerKey n h := by
  simp only [headerKey, encodeBlockNumber_mod]

theorem DeleteHeader_headerNumberKey (s : Store) (hash : Hash) (number : Nat) :
    (DeleteHeader Store.deleter s hash number) (headerNumberKey hash) = none := by
  simp [DeleteHeader, Store.deleter, Store.delete]

theorem DeleteHeader_other (s : Store) (hash : Hash) (number : Nat) (k : Bytes)
    (h1 : k ≠ headerKey number hash) (h2 : k ≠ headerNumberKey hash) :
    (DeleteHeader Store.deleter s hash number) k = s k := by
  simp [DeleteHeader, Store.deleter, Store.delete, h1, h2]

theorem HeaderNumberHasHeader_empty : HeaderNumberHasHeader Store.empty := by
  intro hash n h
  simp [ReadHeaderNumber, Store.reader, Store.empty] at h

theorem HeaderNumberHasHeader_WriteHeader (c : Deps) (s : Store) (header : Header)
    (hinv : HeaderNumberHasHeader s) :
    HeaderNumberHasHeader (WriteHeader c Store.writer s header) := by
  intro hash n hr
  rw [HasHeader_eq_isSome]
  by_cases he : hash = header.Hash
  · subst he
    rw [ReadHeaderNumber_present none _ _ _ (WriteHeader_headerNumberKey c s header)] at hr
    simp only [Option.some.injEq] at hr
    rw [← hr, headerKey_mod, WriteHeader_headerKey]
    rfl
  · have hnum : (WriteHeader c Store.writer s header) (headerNumberKey hash)
        = s (headerNumberKey hash) :=
      WriteHeader_other c s header _ (headerNumberKey_ne_of_hash_ne he)
        (headerKey_ne_headerNumberKey _ _ _).symm
    rw [ReadHeaderNumber_congr none _ s hash hnum] at hr
    have h0 := hinv hash n hr
    rw [HasHeader_eq_isSome] at h0
    rw [WriteHeader_other c s header _ (headerKey_ne_headerNumberKey _ _ _)
      (headerKey_ne_of_hash_ne _ _ he)]
    exact h0

theorem HeaderNumberHasHeader_DeleteHeader (s : Store) (hash : Hash) (number : Nat)
    (hinv : HeaderNumberHasHeader s) :
    HeaderNumberHasHeader (DeleteHeader Store.deleter s hash number) := by
  intro hash2 n hr
  rw [HasHeader_eq_isSome]
  by_cases he : hash2 = hash
  · subst he
    have hnone := DeleteHeader_headerNumberKey s hash2 number
    simp [ReadHeaderNumber, Store.get_absent none _ _ hnone] at hr
  · have hnum : (DeleteHeader Store.deleter s hash number) (headerNumberKey hash2)
        = s (headerNumberKey hash2) :=
      DeleteHeader_other s hash number _ (headerKey_ne_headerNumberKey _ _ _).symm
        (headerNumberKey_ne_of_hash_ne he)
    rw [ReadHeaderNumber_congr none _ s hash2 hnum] at hr
    have h0 := hinv hash2 n hr
    rw [HasHeader_eq_isSome] at h0
    rw [DeleteHeader_other s hash number _ (headerKey_ne_of_hash_ne _ _ he)
      (headerKey_ne_headerNumberKey _ _ _)]
    exact h0

/-- C20, the claim as stated fails.  From the empty store, where the
implication holds, the state after the first `Put` of `WriteHeader` has the
height 7 under `headerNumberKey(hash)` and no header under `headerKey(7, hash)`;
from the store left by that `WriteHeader`, where the implication holds, the
state after the first `Delete` of `DeleteHeader` is again such a state. -/
theorem HeaderNumber_seen_without_Header :
    HeaderNumberHasHeader Store.empty ∧
      ¬ HeaderNumberHasHeader
        ((Store.empty.reached (WriteHeader sampleDeps traceWriter [] sampleHeader)).headD
          Store.empty) ∧
      HeaderNumberHasHeader (WriteHeader sampleDeps Store.writer Store.empty sampleHeader) ∧
      ¬ HeaderNumberHasHeader
        (((WriteHeader sampleDeps Store.writer Store.empty sampleHeader).reached
          (DeleteHeader traceDeleter [] sampleHeader.Hash sampleHeader.Height)).headD
          Store.empty) := by
  refine ⟨HeaderNumberHasHeader_empty, fun h => ?_,
    HeaderNumberHasHeader_WriteHeader _ _ _ HeaderNumberHasHeader_empty, fun h => ?_⟩
  · have h1 := h (sampleHash 1) 7 (by decide)
    revert h1
    decide
  · have h1 := h (sampleHash 1) 7 (by decide)
    revert h1
    decide

/-- C20, amended. `WriteHeader` and `DeleteHeader` keep the implication from
their start to their completion: starting from a store in which
`headerNumberKey(hash)` present with height `n` implies `headerKey(n, hash)`
present, the same holds in the store reached when `WriteHeader` has issued both
its `Put`s, and in the store reached when `DeleteHeader` has issued both its
`Delete`s; these stores are the last of the states reached operation by
operation. -/
theorem HeaderNumberHasHeader_at_completion (c : Deps) (s : Store) (header : Header)
    (hash : Hash) (number : Nat) (hinv : HeaderNumberHasHeader s) :
    HeaderNumberHasHeader (WriteHeader c Store.writer s header) ∧
      HeaderNumberHasHeader (DeleteHeader Store.deleter s hash number) ∧
      (s.reached (WriteHeader c traceWriter [] header)).getLast?
        = some (WriteHeader c Store.writer s header) ∧
      (s.reached (DeleteHeader traceDeleter [] hash number)).getLast?
        = some (DeleteHeader Store.deleter s hash number) :=
  ⟨HeaderNumberHasHeader_WriteHeader c s header hinv,
    HeaderNumberHasHeader_DeleteHeader s hash number hinv, rfl, rfl⟩

theorem HeaderNumberHasHeader_at_completion_witness :
    HeaderNumberHasHeader Store.empty ∧
      HeaderNumberHasHeader (WriteHeader sampleDeps Store.writer Store.empty sampleHeader) :=
  ⟨HeaderNumberHasHeader_empty,
    (HeaderNumberHasHeader_at_completion sampleDeps Store.empty sampleHeader (sampleHash 1) 7
      HeaderNumberHasHeader_empty).1⟩

/-! ## Theorems: the index check of ReadTransaction -/

/-- C21, the code at a failing input.  The store holds a lookup entry with
index 2^63 for a block whose body exists and has a single transaction, so the
index is not a valid position in the group; the check compares `Len()` with
the negative `int(txIndex)`, does not reject, and `ReadTransaction` returns
what `GetTx` gives at position 2^63 together with the block hash, the height
and the index, not the empty result. -/
theorem ReadTransaction_index_overflow :
    layoutDeps.DecodeEntry (encodeEntryLayout overflowEntry) = .ok overflowEntry ∧
      ReadBody layoutDeps (Store.reader none) overflowIndexStore (sampleHash 1) 7
        = some sampleBody ∧
      sampleBody.Txs.Data = [[sampleTx]] ∧
      toInt overflowEntry.TxIndex = -(2 ^ 63) ∧
      ReadTransaction layoutDeps (Store.reader none) overflowIndexStore sampleTx.Hash
        = (sampleBody.Txs.GetTx "transfer" (2 ^ 63), sampleHash 1, 7, 2 ^ 63) ∧
      ReadTransaction layoutDeps (Store.reader none) overflowIndexStore sampleTx.Hash
        ≠ (none, Hash.zero, 0, 0) := by
  refine ⟨by rfl, by decide, rfl, by decide, by decide, by decide⟩

theorem ReadTransaction_of_check_passed (c : Deps) (nf : Error) (s : Store) (t : Hash)
    (data bdata : Bytes) (entry : TxLookupEntry) (body : Body)
    (hl : s (txLookupKey t) = some data) (hne : data ≠ [])
    (hdec : c.DecodeEntry data = .ok entry) (hz : entry.BlockHash ≠ Hash.zero)
    (hb : s (blockBodyKey entry.BlockIndex entry.BlockHash) = some bdata) (hbne : bdata ≠ [])
    (hbdec : c.DecodeBody bdata = .ok body)
    (hcheck : ¬ body.Txs.Len ≤ toInt entry.TxIndex) :
    ReadTransaction c (Store.reader nf) s t =
      (body.Txs.GetTx entry.TxType entry.TxIndex, entry.BlockHash, entry.BlockIndex,
        entry.TxIndex) := by
  have hrl : ReadTxLookupEntry c (Store.reader nf) s t =
      (entry.BlockHash, entry.BlockIndex, entry.TxType, entry.TxIndex) := by
    simp only [ReadTxLookupEntry, Store.get_present nf s _ _ hl]
    rw [if_neg (by simpa using hne), hdec]
  have hrb := ReadBody_present c nf s entry.BlockHash entry.BlockIndex bdata body hb hbne hbdec
  simp only [ReadTransaction, hrl, if_neg hz, hrb, if_neg hcheck]

/-- Every lookup index from 2^63 on passes the check of `ReadTransaction`:
the body is indexed with it and the result is not the empty result. -/
theorem ReadTransaction_index_from_2_63 (c : Deps) (nf : Error) (s : Store) (t : Hash)
    (data bdata : Bytes) (entry : TxLookupEntry) (body : Body)
    (hl : s (txLookupKey t) = some data) (hne : data ≠ [])
    (hdec : c.DecodeEntry data = .ok entry) (hz : entry.BlockHash ≠ Hash.zero)
    (hb : s (blockBodyKey entry.BlockIndex entry.BlockHash) = some bdata) (hbne : bdata ≠ [])
    (hbdec : c.DecodeBody bdata = .ok body)
    (h63 : 2 ^ 63 ≤ entry.TxIndex) (h64 : entry.TxIndex < 2 ^ 64) :
    ReadTransaction c (Store.reader nf) s t =
      (body.Txs.GetTx entry.TxType entry.TxIndex, entry.BlockHash, entry.BlockIndex,
        entry.TxIndex) := by
  apply ReadTransaction_of_check_passed c nf s t data bdata entry body hl hne hdec hz hb hbne
    hbdec
  have h1 := toInt_neg_of_ge h63 h64
  have h2 := Transactions.Len_nonneg body.Txs
  omega

/-- The check of `ReadTransaction` compares the index with the number of
transactions of all groups: with two groups of one transaction each, index 1
passes the check and is no position of the group it is looked up in. -/
theorem index_check_uses_total_length :
    twoGroups.Len = 2 ∧ ¬ twoGroups.Len ≤ toInt 1 ∧ twoGroups.GetTx "transfer" 1 = none ∧
      twoGroups.GetTx "transfer" 0 = some sampleTx := by
  decide

/-! ## Theorems: the frame of rollback -/

theorem not_mem_blockKeys_of_head (k : Bytes) (blockAbs : List BlockAbstract)
    (h : k.head? ≠ some 98 ∧ k.head? ≠ some 104 ∧ k.head? ≠ some 72) :
    k ∉ blockAbs.flatMap blockKeys := by
  intro hm
  rw [List.mem_flatMap] at hm
  obtain ⟨a, -, ha⟩ := hm
  simp only [blockKeys, List.mem_cons, List.mem_singleton, List.not_mem_nil, or_false] at ha
  rcases ha with e | e | e
  · exact h.1 (by rw [e]; rfl)
  · exact h.2.1 (by rw [e]; rfl)
  · exact h.2.2 (by rw [e]; rfl)

theorem not_mem_rollbackKeys_of_head (k : Bytes) (desHeight i : Nat)
    (h : k.head? ≠ some 104) : k ∉ rollbackKeys desHeight i := by
  intro hm
  obtain ⟨j, -, -, e⟩ := (mem_rollbackKeys desHeight i k).mp hm
  exact h (by rw [e]; rfl)

theorem headerHashKey_mem_rollbackKeys_iff (desHeight currentHeight i : Nat)
    (hi : i < 2 ^ 64) (hcur : currentHeight < 2 ^ 64) :
    headerHashKey i ∈ rollbackKeys desHeight currentHeight ↔
      desHeight < i ∧ i ≤ currentHeight := by
  rw [mem_rollbackKeys]
  constructor
  · rintro ⟨j, h1, h2, h3⟩
    have := headerHashKey_inj hi (by omega) h3
    omega
  · rintro ⟨h1, h2⟩
    exact ⟨i, h1, h2, rfl⟩

theorem rollbackKeys_length (desHeight i : Nat) :
    (rollbackKeys desHeight i).length = i - desHeight := by
  induction i with
  | zero => simp [rollbackKeys]
  | succ i ih =>
    by_cases h : i + 1 > desHeight
    · simp only [rollbackKeys, if_pos h, List.length_cons, ih]
      omega
    · simp only [rollbackKeys, if_neg h, List.length_nil]
      omega

theorem DeleteBlock_unchanged_of_head (nf : Error) (s : Store) (blockAbs : List BlockAbstract)
    (currentHeight desHeight : Nat) (k : Bytes)
    (h : k.head? ≠ some 98 ∧ k.head? ≠ some 104 ∧ k.head? ≠ some 72) :
    (kvStore.DeleteBlock (Store.database nf none) s blockAbs currentHeight desHeight).1 k
      = s k := by
  rw [(DeleteBlock_committed nf s blockAbs currentHeight desHeight k).2, if_neg]
  rw [List.mem_append, not_or]
  exact ⟨not_mem_blockKeys_of_head k blockAbs h, not_mem_rollbackKeys_of_head k _ _ h.2.1⟩

/-- C22. A committed facade `DeleteBlock(blockAbs, currentHeight, desHeight)`
with `uint64` heights removes the canonical-hash key of a height `i` exactly
when `desHeight < i ≤ currentHeight` (none when `currentHeight ≤ desHeight`;
the loop issues `currentHeight - desHeight` deletes and never reaches height
0), removes the body, header and header-number keys of the listed blocks, and
leaves every other key unchanged, in particular the canonical entries above
`currentHeight`, all receipts and transaction-lookup keys and both head
pointers. -/
theorem DeleteBlock_frame (notFound : Error) (s : Store) (blockAbs : List BlockAbstract)
    (currentHeight desHeight : Nat) (hcur : currentHeight < 2 ^ 64) :
    (kvStore.DeleteBlock (Store.database notFound none) s blockAbs currentHeight desHeight).2
        = none ∧
      (∀ i, i < 2 ^ 64 →
        (desHeight < i ∧ i ≤ currentHeight →
          (kvStore.DeleteBlock (Store.database notFound none) s blockAbs currentHeight
            desHeight).1 (headerHashKey i) = none) ∧
        (¬ (desHeight < i ∧ i ≤ currentHeight) →
          (kvStore.DeleteBlock (Store.database notFound none) s blockAbs currentHeight
            desHeight).1 (headerHashKey i) = s (headerHashKey i))) ∧
      (currentHeight ≤ desHeight → ∀ i,
        (kvStore.DeleteBlock (Store.database notFound none) s blockAbs currentHeight
          desHeight).1 (headerHashKey i) = s (headerHashKey i)) ∧
      (kvStore.DeleteBlock.rollback (Store.database notFound none).batchDeleter desHeight
          currentHeight [] = (rollbackKeys desHeight currentHeight).map Op.delete ∧
        (rollbackKeys desHeight currentHeight).length = currentHeight - desHeight ∧
        (kvStore.DeleteBlock (Store.database notFound none) s blockAbs currentHeight
          desHeight).1 (headerHashKey 0) = s (headerHashKey 0)) ∧
      (∀ a ∈ blockAbs,
        (kvStore.DeleteBlock (Store.database notFound none) s blockAbs currentHeight
          desHeight).1 (blockBodyKey a.Height a.Hash) = none ∧
        (kvStore.DeleteBlock (Store.database notFound none) s blockAbs currentHeight
          desHeight).1 (headerKey a.Height a.Hash) = none ∧
        (kvStore.DeleteBlock (Store.database notFound none) s blockAbs currentHeight
          desHeight).1 (headerNumberKey a.Hash) = none) ∧
      (∀ k, k ∉ blockAbs.flatMap blockKeys →
        (∀ i, desHeight < i → i ≤ currentHeight → k ≠ headerHashKey i) →
        (kvStore.DeleteBlock (Store.database notFound none) s blockAbs currentHeight
          desHeight).1 k = s k) ∧
      (∀ (n : Nat) (h : Hash),
        (kvStore.DeleteBlock (Store.database notFound none) s blockAbs currentHeight
          desHeight).1 (blockReceiptsKey n h) = s (blockReceiptsKey n h)) ∧
      (∀ h : Hash,
        (kvStore.DeleteBlock (Store.database notFound none) s blockAbs currentHeight
          desHeight).1 (txLookupKey h) = s (txLookupKey h)) ∧
      (kvStore.DeleteBlock (Store.database notFound none) s blockAbs currentHeight
          desHeight).1 headHeaderKey = s headHeaderKey ∧
      (kvStore.DeleteBlock (Store.database notFound none) s blockAbs currentHeight
          desHeight).1 headBlockKey = s headBlockKey := by
  have key := fun k => (DeleteBlock_committed notFound s blockAbs currentHeight desHeight k).2
  have hcanon : ∀ i, ¬ (∃ j, desHeight < j ∧ j ≤ currentHeight ∧
      headerHashKey i = headerHashKey j) →
      (kvStore.DeleteBlock (Store.database notFound none) s blockAbs currentHeight
        desHeight).1 (headerHashKey i) = s (headerHashKey i) := by
    intro i hno
    rw [key, if_neg]
    rw [List.mem_append, not_or, mem_rollbackKeys]
    exact ⟨headerHashKey_not_mem_blockKeys _ _, hno⟩
  have hin : ∀ k, k ∈ blockAbs.flatMap blockKeys ++ rollbackKeys desHeight currentHeight →
      (kvStore.DeleteBlock (Store.database notFound none) s blockAbs currentHeight
        desHeight).1 k = none := by
    intro k hk
    rw [key, if_pos hk]
  refine ⟨(DeleteBlock_committed notFound s blockAbs currentHeight desHeight []).1, ?_, ?_,
    ⟨?_, rollbackKeys_length _ _, ?_⟩, ?_, ?_, ?_, ?_, ?_, ?_⟩
  · intro i hi
    constructor
    · intro hr
      exact hin _ (List.mem_append_right _
        ((headerHashKey_mem_rollbackKeys_iff _ _ _ hi hcur).mpr hr))
    · intro hr
      apply hcanon
      rw [← mem_rollbackKeys, headerHashKey_mem_rollbackKeys_iff _ _ _ hi hcur]
      exact hr
  · intro hle i
    apply hcanon
    rintro ⟨j, h1, h2, -⟩
    omega
  · rw [DeleteBlock_rollback_batch, List.nil_append]
  · apply hcanon
    rw [← mem_rollbackKeys, headerHashKey_mem_rollbackKeys_iff _ _ _ (by decide) hcur]
    omega
  · intro a ha
    refine ⟨hin _ ?_, hin _ ?_, hin _ ?_⟩ <;>
      exact List.mem_append_left _ (List.mem_flatMap.mpr ⟨a, ha, by simp [blockKeys]⟩)
  · intro k hk hno
    rw [key, if_neg]
    rw [List.mem_append, not_or, mem_rollbackKeys]
    refine ⟨hk, ?_⟩
    rintro ⟨j, h1, h2, h3⟩
    exact hno j h1 h2 h3
  · intro n h
    exact DeleteBlock_unchanged_of_head notFound s blockAbs currentHeight desHeight _
      (by simp [blockReceiptsKey, blockReceiptsPrefix, ascii])
  · intro h
    exact DeleteBlock_unchanged_of_head notFound s blockAbs currentHeight desHeight _
      (by simp [txLookupKey, txLookupPrefix, ascii])
  · exact DeleteBlock_unchanged_of_head notFound s blockAbs currentHeight desHeight _
      (by decide)
  · exact DeleteBlock_unchanged_of_head notFound s blockAbs currentHeight desHeight _
      (by decide)

theorem DeleteBlock_frame_witness :
    (3 : Nat) < 2 ^ 64 ∧
      (kvStore.DeleteBlock (Store.database none none) sampleCanonicalStore
        [⟨sampleHash 1, 2⟩] 3 0).1 (headerHashKey 5) = sampleCanonicalStore (headerHashKey 5) ∧
      (kvStore.DeleteBlock (Store.database none none) sampleCanonicalStore
        [⟨sampleHash 1, 2⟩] 3 0).1 (headerHashKey 0) = sampleCanonicalStore (headerHashKey 0) :=
  ⟨by decide,
    ((DeleteBlock_frame none sampleCanonicalStore [⟨sampleHash 1, 2⟩] 3 0 (by decide)).2.1 5
      (by decide)).2 (by decide),
    (DeleteBlock_frame none sampleCanonicalStore [⟨sampleHash 1, 2⟩] 3 0
      (by decide)).2.2.2.1.2.2⟩

/-! ## Theorems: HasBlock -/

theorem HasBody_eq_isSome (nf : Error) (s : Store) (hash : Hash) (n : Nat) :
    HasBody (Store.reader nf) s hash n = (s (blockBodyKey n hash)).isSome := by
  cases h : s (blockBodyKey n hash) <;> simp [HasBody, Store.reader, h]

theorem headerKey_ne_blockBodyKey (n m : Nat) (h k : Hash) : headerKey n h ≠ blockBodyKey m k :=
  fun e => blockBodyKey_ne_headerKey m n k h e.symm

/-- C23. The facade `HasBlock(hash, height)` returns true, with a nil error,
if and only if a body record exists under `blockBodyKey(height, hash)`,
whether or not the header record exists; so on every store with that body
record and without the header record, in particular after `WriteBody` alone on
a store without the header, `HasBlock(hash, height)` is true while
`GetBlock(hash, height)` returns nil and an error. -/
theorem HasBlock_iff_body (c : Deps) (notFound commit : Error) (s : Store) (hash : Hash)
    (height : Nat) :
    (kvStore.HasBlock (Store.database notFound commit) s hash height).2 = none ∧
      ((kvStore.HasBlock (Store.database notFound commit) s hash height).1 = true ↔
        ∃ data, s (blockBodyKey height hash) = some data) ∧
      (∀ v : Option Bytes,
        (kvStore.HasBlock (Store.database notFound commit)
          (fun k => if k = headerKey height hash then v else s k) hash height).1 =
        (kvStore.HasBlock (Store.database notFound commit) s hash height).1) ∧
      ((∃ data, s (blockBodyKey height hash) = some data) →
        s (headerKey height hash) = none →
        (kvStore.HasBlock (Store.database notFound commit) s hash height).1 = true ∧
        kvStore.GetBlock c (Store.database notFound commit) s hash height
          = (none, some "block is not exist")) ∧
      (∀ body : Body, s (headerKey height hash) = none →
        (kvStore.HasBlock (Store.database notFound commit)
          (WriteBody c Store.writer s hash height body) hash height).1 = true ∧
        kvStore.GetBlock c (Store.database notFound commit)
          (WriteBody c Store.writer s hash height body) hash height
          = (none, some "block is not exist")) := by
  have hhas : ∀ t : Store, (kvStore.HasBlock (Store.database notFound commit) t hash height).1
      = (t (blockBodyKey height hash)).isSome := fun t => HasBody_eq_isSome notFound t hash height
  have hget : ∀ t : Store, t (headerKey height hash) = none →
      kvStore.GetBlock c (Store.database notFound commit) t hash height
        = (none, some "block is not exist") := by
    intro t ht
    have hr : ReadBlock c (Store.reader notFound) t hash height = none := by
      simp [ReadBlock, ReadHeader_absent c notFound t hash height ht]
    show (match ReadBlock c (Store.reader notFound) t hash height with
      | none => (none, some "block is not exist")
      | some block => (some block, none)) = _
    rw [hr]
  refine ⟨rfl, ?_, fun v => ?_, fun hb hh => ⟨?_, hget s hh⟩, fun body hh => ⟨?_, ?_⟩⟩
  · rw [hhas, Option.isSome_iff_exists]
  · rw [hhas, hhas, if_neg (blockBodyKey_ne_headerKey _ _ _ _)]
  · rw [hhas, Option.isSome_iff_exists]
    exact hb
  · rw [hhas]
    simp [WriteBody, WriteBodyRLP, Store.writer, Store.put]
  · apply hget
    simp only [WriteBody, WriteBodyRLP, Store.writer_put]
    rw [Store.put_other _ _ (headerKey_ne_blockBodyKey _ _ _ _)]
    exact hh

end Kvstore
